import Mathlib

/-!
Verification of the grid-based multi-agent exploration simulation.

Shallow embedding of the Rust sources:
* `carte.rs`   : tile grid, obstacle/bounds query, map generation, obstacle-run limiting
* `utils.rs`   : BFS pathfinding (`calculer_chemin_bfs`), discovery ledger (`enregistrer_decouverte`)
* `robot.rs`   : robot state machine (`deplacer_robots`), collector spawning (`creer_collecteur`)
* `main.rs`    : the monolithic variant of the robot update pass

Rust `Vec` becomes `List`; `HashSet` becomes a `List` with a membership test
before insertion; `HashMap` becomes an association list whose keys are inserted
at most once; `VecDeque` becomes a `List` with head as queue front; `isize`
becomes `Int`; bounded loops whose termination depends on data become
fuel-indexed recursions returning `Option`, with `none` standing for the
would-be divergence or panic that the invariants rule out.
-/

namespace RobotsSim

/-- Tile kinds, from `TypePixel` in `carte.rs`. -/
inductive TypePixel where
  | Vide
  | Obstacle
  | Energie
  | Minerai
  | SiteScientifique
  | Station
deriving DecidableEq, Repr

/-- A grid coordinate, Rust `(isize, isize)`. -/
abbrev Pos := Int × Int

/-- `LARGEUR_CARTE` in `carte.rs`. -/
def LARGEUR_CARTE : Nat := 50

/-- `HAUTEUR_CARTE` in `carte.rs`. -/
def HAUTEUR_CARTE : Nat := 30

/-- `TAILLE_MAX_OBSTACLE` in `carte.rs`. -/
def TAILLE_MAX_OBSTACLE : Nat := 5

/-- The map, from `struct Carte` in `carte.rs`: row-major tile data with
declared dimensions. -/
structure Carte where
  donnees : List (List TypePixel)
  largeur : Nat
  hauteur : Nat
deriving DecidableEq, Repr

/-- Well-formedness tying `donnees` to the declared dimensions; this is the
implicit invariant of the Rust `Carte` (otherwise in-bounds indexing panics). -/
def CarteWF (c : Carte) : Prop :=
  c.donnees.length = c.hauteur ∧ ∀ row ∈ c.donnees, row.length = c.largeur

instance (c : Carte) : Decidable (CarteWF c) :=
  inferInstanceAs (Decidable (c.donnees.length = c.hauteur
    ∧ ∀ row ∈ c.donnees, row.length = c.largeur))

/-- Direct double indexing `carte.donnees[y][x]`, made total with defaults.
For well-formed maps and in-bounds coordinates it agrees with Rust. -/
def tuileIdx (c : Carte) (x y : Int) : TypePixel :=
  ((c.donnees.getD y.toNat []).getD x.toNat TypePixel.Vide)

/-- `Carte::est_obstacle` in `carte.rs`: out of bounds counts as obstacle,
otherwise the tile is compared against `Obstacle`. -/
def Carte.est_obstacle (c : Carte) (x y : Int) : Bool :=
  if x < 0 || y < 0 || x ≥ (c.largeur : Int) || y ≥ (c.hauteur : Int) then true
  else tuileIdx c x y == TypePixel.Obstacle

/-- Panic-aware variant of `est_obstacle`: `none` models the panic that the
inner indexing `self.donnees[y as usize][x as usize]` would raise when the
row or column is missing. -/
def est_obstacleChecked (c : Carte) (x y : Int) : Option Bool :=
  if x < 0 || y < 0 || x ≥ (c.largeur : Int) || y ≥ (c.hauteur : Int) then some true
  else ((c.donnees.get? y.toNat).bind fun row => row.get? x.toNat).map
    (fun t => t == TypePixel.Obstacle)

/-- A discovery report, from `struct Decouverte` in `carte.rs`. -/
structure Decouverte where
  resource : TypePixel
  x : Int
  y : Int
deriving DecidableEq, Repr

/-- The station depot, from `struct DepotStation` in `carte.rs`. -/
structure DepotStation where
  decouvertes : List Decouverte
  stock_energie : Nat
  stock_minerai : Nat
deriving DecidableEq, Repr

/-- `enregistrer_decouverte` in `utils.rs`: insert the discovery only when the
ledger has no entry at its position; otherwise (same or different resource)
leave the ledger unchanged, only printing a message. -/
def enregistrer_decouverte (depot : DepotStation) (dec : Decouverte) : DepotStation :=
  match depot.decouvertes.find? (fun d => d.x == dec.x && d.y == dec.y) with
  | some _ => depot
  | none => { depot with decouvertes := depot.decouvertes ++ [dec] }

/-- Number of ledger entries at a given position. -/
def entreesEnPosition (depot : DepotStation) (x y : Int) : Nat :=
  (depot.decouvertes.filter (fun d => d.x == x && d.y == y)).length

/-- The ledger invariant: at most one entry per position. -/
def LedgerUnique (l : List Decouverte) : Prop :=
  l.Pairwise (fun a b => ¬(a.x = b.x ∧ a.y = b.y))

/-- The initial depot inserted at startup: empty ledger, zero stocks. -/
def depotInitial : DepotStation :=
  { decouvertes := [], stock_energie := 0, stock_minerai := 0 }

/-- Robot modules, from `ModuleRobot` in `robot.rs`. -/
inductive ModuleRobot where
  | AnalyseChimique
  | Forage
  | ImagerieHauteResolution
deriving DecidableEq, Repr

/-- Robot states, from `EtatRobot` in `robot.rs`. -/
inductive EtatRobot where
  | Explorer
  | Retourner
deriving DecidableEq, Repr

/-- Robot roles, from `RoleRobot` in `robot.rs`. -/
inductive RoleRobot where
  | Explorateur
  | Collecteur
deriving DecidableEq, Repr

/-- A robot, from `struct Robot` in `robot.rs`. -/
structure Robot where
  x : Int
  y : Int
  etat : EtatRobot
  role : RoleRobot
  decouvertes : List Decouverte
  cargo : Option (TypePixel × Int × Int)
  cible : Option (Int × Int)
  visites : List Pos
  modules : List ModuleRobot
deriving DecidableEq, Repr

/-- The station position resource, from `PositionStation` in `carte.rs`. -/
structure PositionStation where
  x : Nat
  y : Nat
deriving DecidableEq, Repr

/-- `creer_collecteur` in `robot.rs`: a fresh collector at the station whose
module list is determined by the requested module. -/
def creer_collecteur (station : PositionStation) (module : ModuleRobot) : Robot :=
  let modules : List ModuleRobot :=
    match module with
    | ModuleRobot.Forage => [ModuleRobot.Forage]
    | ModuleRobot.AnalyseChimique => [ModuleRobot.AnalyseChimique]
    | _ => []
  { x := (station.x : Int), y := (station.y : Int),
    etat := EtatRobot.Explorer, role := RoleRobot.Collecteur,
    decouvertes := [], cargo := none, cible := none, visites := [],
    modules := modules }

/-- The deposit branch of `deplacer_robots` (collector, `Retourner`, at the
station, cargo present), `robot.rs` lines 338-364: increment the matching
stock, and when it reaches 3 or more, take 3 back and spawn one collector of
the complementary specialization. Returns the updated depot and the list of
robots spawned. -/
def deposerCargo (station : PositionStation) (depot : DepotStation)
    (resource : TypePixel) : DepotStation × List Robot :=
  match resource with
  | TypePixel.Energie =>
      let depot := { depot with stock_energie := depot.stock_energie + 1 }
      if depot.stock_energie ≥ 3 then
        ({ depot with stock_energie := depot.stock_energie - 3 },
         [creer_collecteur station ModuleRobot.Forage])
      else (depot, [])
  | TypePixel.Minerai =>
      let depot := { depot with stock_minerai := depot.stock_minerai + 1 }
      if depot.stock_minerai ≥ 3 then
        ({ depot with stock_minerai := depot.stock_minerai - 3 },
         [creer_collecteur station ModuleRobot.AnalyseChimique])
      else (depot, [])
  | _ => (depot, [])

/-- The target-claiming branch of `deplacer_robots` (collector, `Explorer`, at
the station, no target), `robot.rs` lines 287-294: find the first ledger entry
of the wanted resource whose tile still holds it, remove it, and return its
position as the new target. -/
def prendreCible (carte : Carte) (depot : DepotStation) (filtre : TypePixel) :
    DepotStation × Option (Int × Int) :=
  match depot.decouvertes.findIdx? (fun d =>
      d.resource == filtre && tuileIdx carte d.x d.y == d.resource) with
  | some i =>
      match depot.decouvertes.get? i with
      | some dec =>
          ({ depot with decouvertes := depot.decouvertes.eraseIdx i },
           some (dec.x, dec.y))
      | none => (depot, none)
  | none => (depot, none)

/-- Read `carte[y][x]` on a raw grid, with `Vide` as the out-of-shape default. -/
def getCase (g : List (List TypePixel)) (x y : Nat) : TypePixel :=
  (g.getD y []).getD x TypePixel.Vide

/-- Write `carte[y][x] = t` on a raw grid (no-op when out of shape, which the
call sites' bounds checks rule out). -/
def setCase (g : List (List TypePixel)) (x y : Nat) (t : TypePixel) :
    List (List TypePixel) :=
  g.set y ((g.getD y []).set x t)

/-- The direction order of the obstacle-run limiter (`carte.rs` line 191). -/
def directionsLimiteur : List (Int × Int) := [(0, 1), (1, 0), (0, -1), (-1, 0)]

/-- The inner `while` walk of `limiter_taille_obstacles`: starting from
`(nx, ny)`, walk in direction `(dx, dy)` while the cell is an in-bounds
obstacle, incrementing the shared counter and blanking every cell at which the
counter exceeds `TAILLE_MAX_OBSTACLE`. The walk leaves the grid's bounds after
at most `largeur + hauteur` steps, so the fuel used at call sites never runs
out. -/
def marcheLimite (largeur hauteur : Nat) (dx dy : Int) :
    Nat → Int → Int → Nat → List (List TypePixel) → List (List TypePixel) × Nat
  | 0, _, _, taille, g => (g, taille)
  | fuel + 1, nx, ny, taille, g =>
      if 0 ≤ nx ∧ nx < (largeur : Int) ∧ 0 ≤ ny ∧ ny < (hauteur : Int)
          ∧ getCase g nx.toNat ny.toNat = TypePixel.Obstacle then
        marcheLimite largeur hauteur dx dy fuel (nx + dx) (ny + dy) (taille + 1)
          (if taille + 1 > TAILLE_MAX_OBSTACLE
            then setCase g nx.toNat ny.toNat TypePixel.Vide else g)
      else (g, taille)

/-- Processing of one starting cell by `limiter_taille_obstacles`: if the cell
is an obstacle, walk the four directions in order, threading the shared
counter (initially 1, counting the cell itself). -/
def scanCase (largeur hauteur : Nat) (g : List (List TypePixel)) (x y : Nat) :
    List (List TypePixel) :=
  if getCase g x y = TypePixel.Obstacle then
    (directionsLimiteur.foldl
      (fun (acc : List (List TypePixel) × Nat) d =>
        marcheLimite largeur hauteur d.1 d.2 (largeur + hauteur + 1)
          ((x : Int) + d.1) ((y : Int) + d.2) acc.2 acc.1)
      (g, 1)).1
  else g

/-- The inner `for x in 0..largeur` loop of `limiter_taille_obstacles`. -/
def scanLigne (largeur hauteur : Nat) (g : List (List TypePixel)) (y : Nat) :
    List (List TypePixel) :=
  (List.range largeur).foldl (fun gx x => scanCase largeur hauteur gx x y) g

/-- `limiter_taille_obstacles` in `carte.rs`: scan all cells in row-major
order; for each obstacle cell walk the four directions, blanking cells once
the shared run counter exceeds `TAILLE_MAX_OBSTACLE`. The dimensions are read
off the grid itself (`carte.len()`, `carte[0].len()`). -/
def limiter_taille_obstacles (g : List (List TypePixel)) : List (List TypePixel) :=
  let hauteur := g.length
  let largeur := (g.getD 0 []).length
  (List.range hauteur).foldl (fun gy y => scanLigne largeur hauteur gy y) g

/-- The obstacle-noise pass of `generer_carte`: mark every cell whose Perlin
sample exceeds the threshold as an obstacle. `bruitAuDessusSeuil x y` stands
for the comparison `perlin.get([x * 0.1, y * 0.1]) > SEUIL_OBSTACLE` of the
deterministic seeded noise field. -/
def poserObstacles (bruitAuDessusSeuil : Nat → Nat → Bool)
    (g : List (List TypePixel)) : List (List TypePixel) :=
  (List.range HAUTEUR_CARTE).foldl
    (fun gy y => (List.range LARGEUR_CARTE).foldl
      (fun gx x => if bruitAuDessusSeuil x y then setCase gx x y TypePixel.Obstacle else gx)
      gy)
    g

/-- The resource table of `generer_carte`: a draw in `[0, 100)` maps to
Energie on `0..=5`, Minerai on `6..=10`, SiteScientifique on `11..=14`, else
stays Vide. -/
def caseDepuisTirage (v : Nat) : TypePixel :=
  if v ≤ 5 then TypePixel.Energie
  else if v ≤ 10 then TypePixel.Minerai
  else if v ≤ 14 then TypePixel.SiteScientifique
  else TypePixel.Vide

/-- The resource-fill pass of `generer_carte`: every `Vide` cell consumes one
draw `gen_range(0..100)` from the seeded generator (modelled by the stream
`flux` and a running draw counter) and is replaced through the table. -/
def remplirRessources (flux : Nat → Nat) (g0 : List (List TypePixel)) (n0 : Nat) :
    List (List TypePixel) × Nat :=
  (List.range HAUTEUR_CARTE).foldl
    (fun (acc : List (List TypePixel) × Nat) y =>
      (List.range LARGEUR_CARTE).foldl
        (fun (acc : List (List TypePixel) × Nat) x =>
          if getCase acc.1 x y = TypePixel.Vide then
            (setCase acc.1 x y (caseDepuisTirage (flux acc.2 % 100)), acc.2 + 1)
          else acc)
        acc)
    (g0, n0)

/-- `placer_station` in `carte.rs`: repeatedly draw a coordinate from the
seeded generator until a `Vide` cell is found, write `Station`, and return the
grid, the coordinates and the advanced draw counter. The retry loop is
fuel-indexed (`none` models a run in which no empty cell is ever drawn). -/
def placer_station (flux : Nat → Nat) :
    Nat → List (List TypePixel) → Nat → Option (List (List TypePixel) × Nat × Nat × Nat)
  | 0, _, _ => none
  | fuel + 1, g, n =>
      let hauteur := g.length
      let largeur := (g.getD 0 []).length
      let x := flux n % largeur
      let y := flux (n + 1) % hauteur
      if getCase g x y = TypePixel.Vide then
        some (setCase g x y TypePixel.Station, x, y, n + 2)
      else placer_station flux fuel g (n + 2)

/-- `generer_carte` in `carte.rs`, as a pure function of the seed. The Perlin
noise field and the `StdRng` draw stream are abstract deterministic families
indexed by the seed (`Perlin::new(seed as u32)`,
`StdRng::seed_from_u64(seed)`); everything else follows the code: blank grid,
noise-thresholded obstacles, run limiting, resource fill, station placement. -/
def generer_carte (perlinAuDessusSeuil : Nat → Nat → Nat → Bool)
    (fluxStdRng : Nat → Nat → Nat) (seed : Nat) : Option (Carte × Nat × Nat) :=
  let bruit := perlinAuDessusSeuil seed
  let flux := fluxStdRng seed
  let g0 := List.replicate HAUTEUR_CARTE (List.replicate LARGEUR_CARTE TypePixel.Vide)
  let g1 := poserObstacles bruit g0
  let g2 := limiter_taille_obstacles g1
  let r := remplirRessources flux g2 0
  match placer_station flux (LARGEUR_CARTE * HAUTEUR_CARTE + 1) r.1 r.2 with
  | some (g4, px, py, _) =>
      some ({ donnees := g4, largeur := LARGEUR_CARTE, hauteur := HAUTEUR_CARTE }, px, py)
  | none => none

/-- One program run of the generation step. The extra `entropieThread`
argument stands for the ambient OS entropy (`rand::thread_rng()`) available to
the process; `generer_carte` never consults it — every draw it makes comes
from the seeded families. -/
def executionGenerer (perlinAuDessusSeuil : Nat → Nat → Nat → Bool)
    (fluxStdRng : Nat → Nat → Nat) (_entropieThread : Nat → Nat) (seed : Nat) :
    Option (Carte × Nat × Nat) :=
  generer_carte perlinAuDessusSeuil fluxStdRng seed

/-- The fixed neighbour order of the BFS (`utils.rs` line 30). -/
def directionsBFS : List (Int × Int) := [(0, 1), (0, -1), (1, 0), (-1, 0)]

/-- 4-adjacency, phrased through the code's direction list. -/
def adjacentB (a b : Pos) : Bool :=
  directionsBFS.any (fun d => b == (a.1 + d.1, a.2 + d.2))

/-- An obstacle-avoiding 4-connected path: starts at `dep`, ends at `arr`,
consecutive positions 4-adjacent, and no position is an Obstacle or out of
bounds (`est_obstacle` covers both). -/
def estChemin (c : Carte) (dep arr : Pos) (p : List Pos) : Prop :=
  p.head? = some dep ∧ p.getLast? = some arr
    ∧ List.Chain' (fun a b => adjacentB a b = true) p
    ∧ ∀ q ∈ p, c.est_obstacle q.1 q.2 = false

instance (c : Carte) (dep arr : Pos) (p : List Pos) : Decidable (estChemin c dep arr p) :=
  inferInstanceAs (Decidable (p.head? = some dep ∧ p.getLast? = some arr
    ∧ List.Chain' (fun a b => adjacentB a b = true) p
    ∧ ∀ q ∈ p, c.est_obstacle q.1 q.2 = false))

/-- Lookup in the predecessor map (`HashMap` as an association list whose keys
are inserted at most once). -/
def lookupPos (cf : List (Pos × Pos)) (k : Pos) : Option Pos :=
  (cf.find? (fun e => e.1 == k)).map (fun e => e.2)

/-- The path reconstruction of `calculer_chemin_bfs`: starting from the hit
node, follow `came_from` back to `depart`, collecting nodes in hit-to-start
order (the code reverses at the end). `none` models the panic on a missing
key and the divergence on a cyclic map, neither of which occurs in reachable
states of the algorithm. -/
def chaineRetour (cf : List (Pos × Pos)) (depart : Pos) : Nat → Pos → Option (List Pos)
  | 0, _ => none
  | fuel + 1, courant =>
      if courant = depart then some [courant]
      else (lookupPos cf courant).bind
        (fun prev => (chaineRetour cf depart fuel prev).map (fun l => courant :: l))

/-- One pass of the BFS `for` loop over the four directions, expanding
`courant`: each in-bounds, non-obstacle, unvisited neighbour is marked
visited, recorded in `came_from` and enqueued; upon enqueuing `arrivee` the
loop returns early (`.inr`) with the predecessor map to reconstruct from. -/
def expansionBFS (c : Carte) (arrivee courant : Pos) :
    List (Int × Int) → List Pos → List Pos → List (Pos × Pos) →
    Sum (List Pos × List Pos × List (Pos × Pos)) (List (Pos × Pos))
  | [], visites, file, cf => Sum.inl (visites, file, cf)
  | d :: ds, visites, file, cf =>
      if c.est_obstacle (courant.1 + d.1) (courant.2 + d.2) = false
          ∧ (courant.1 + d.1, courant.2 + d.2) ∉ visites then
        if (courant.1 + d.1, courant.2 + d.2) = arrivee then
          Sum.inr (((courant.1 + d.1, courant.2 + d.2), courant) :: cf)
        else
          expansionBFS c arrivee courant ds
            ((courant.1 + d.1, courant.2 + d.2) :: visites)
            (file ++ [(courant.1 + d.1, courant.2 + d.2)])
            (((courant.1 + d.1, courant.2 + d.2), courant) :: cf)
      else expansionBFS c arrivee courant ds visites file cf

/-- The BFS dequeue loop (`while let Some(courant) = file.pop_front()`). The
fuel bounds the number of dequeues; every dequeue is preceded by a unique
enqueue of a newly-visited in-bounds cell, so the fuel used at the call site
is never exhausted, and exhaustion coincides with the no-path answer `none`. -/
def boucleBFS (c : Carte) (depart arrivee : Pos) :
    Nat → List Pos → List Pos → List (Pos × Pos) → Option (List Pos)
  | 0, _, _, _ => none
  | fuel + 1, visites, file, cf =>
      match file with
      | [] => none
      | courant :: file' =>
          match expansionBFS c arrivee courant directionsBFS visites file' cf with
          | Sum.inr cf' =>
              (chaineRetour cf' depart (cf'.length + 1) arrivee).map List.reverse
          | Sum.inl (visites', file'', cf') =>
              boucleBFS c depart arrivee fuel visites' file'' cf'

/-- `calculer_chemin_bfs` in `utils.rs`: identical start and goal short-circuit
to a singleton path (before any obstacle check); an Obstacle or out-of-bounds
start or goal yields `none`; otherwise breadth-first search from `depart`. -/
def calculer_chemin_bfs (c : Carte) (depart arrivee : Pos) : Option (List Pos) :=
  if depart = arrivee then some [depart]
  else if c.est_obstacle depart.1 depart.2 || c.est_obstacle arrivee.1 arrivee.2 then none
  else boucleBFS c depart arrivee (c.largeur * c.hauteur + 1) [depart] [depart] []

/-- An obstacle-free 3×3 map, the concrete grid of the pathfinding test. -/
def carte3x3 : Carte :=
  { donnees := List.replicate 3 (List.replicate 3 TypePixel.Vide),
    largeur := 3, hauteur := 3 }

/-- A 1×1 map whose only cell is an Obstacle. -/
def carteObstacle1 : Carte :=
  { donnees := [[TypePixel.Obstacle]], largeur := 1, hauteur := 1 }

/-- A 1×3 map whose middle cell is an Obstacle (the two ends are mutually
unreachable). -/
def carteMur : Carte :=
  { donnees := [[TypePixel.Vide, TypePixel.Obstacle, TypePixel.Vide]],
    largeur := 3, hauteur := 1 }

/-- A path together with its minimality: `l` is a reconstruction chain
(hit-to-start order) whose reversal is a valid path from `dep` to `cible`
no longer than any other valid path. -/
def CheminMin (c : Carte) (dep cible : Pos) (l : List Pos) : Prop :=
  estChemin c dep cible l.reverse
    ∧ ∀ r, estChemin c dep cible r → l.length ≤ r.length

/-- The reconstruction chain recorded for `x`: defined, of length `n`, a
minimal path once reversed, and passing only through visited nodes. -/
def BonneChaine (c : Carte) (dep : Pos) (cf : List (Pos × Pos))
    (visites : List Pos) (x : Pos) (n : Nat) : Prop :=
  ∃ l, chaineRetour cf dep (cf.length + 1) x = some l ∧ l.length = n
    ∧ CheminMin c dep x l ∧ ∀ y ∈ l, y ∈ visites

/-- The BFS loop invariant. `d` is the depth of the queue's front layer:
the queue splits into a `d+1`-chain prefix and a `d+2`-chain suffix, every
node within `d` steps of the start has been visited, and every dequeued node
has had all its passable neighbours visited. -/
structure InvBFS (c : Carte) (depart arrivee : Pos)
    (visites file : List Pos) (cf : List (Pos × Pos)) (d : Nat) : Prop where
  dep_vis : depart ∈ visites
  arr_nvis : arrivee ∉ visites
  file_vis : ∀ x ∈ file, x ∈ visites
  file_nodup : file.Nodup
  couches : ∃ fA fB, file = fA ++ fB
      ∧ (∀ x ∈ fA, BonneChaine c depart cf visites x (d + 1))
      ∧ (∀ x ∈ fB, BonneChaine c depart cf visites x (d + 2))
  couvert : ∀ y r, estChemin c depart y r → r.length ≤ d + 1 → y ∈ visites
  expanses : ∀ x ∈ visites, x ∉ file → ∀ dd ∈ directionsBFS,
      c.est_obstacle (x.1 + dd.1) (x.2 + dd.2) = false →
      (x.1 + dd.1, x.2 + dd.2) ∈ visites

/-- Folding several successive cargo deposits at the station, accumulating the
collectors spawned along the way (each element models one collector arriving
with that resource as cargo). -/
def deposerSuite (station : PositionStation) (depot : DepotStation) :
    List TypePixel → DepotStation × List Robot
  | [] => (depot, [])
  | r :: rs =>
      let d1 := deposerCargo station depot r
      let d2 := deposerSuite station d1.1 rs
      (d2.1, d1.2 ++ d2.2)

/-- The ambient `rand::thread_rng()` used by `deplacer_robots`, modelled as a
stream of naturals consumed left to right: `gen_range(0..n)` draws
`flux indice % n` and advances the index. -/
structure FluxAleatoire where
  flux : Nat → Nat
  indice : Nat

/-- One `gen_range(0..n)` draw. -/
def tirer (r : FluxAleatoire) (n : Nat) : Nat × FluxAleatoire :=
  (r.flux r.indice % n, { r with indice := r.indice + 1 })

/-- The direction order of the robot movement loop (`robot.rs` line 175). -/
def directionsRobot : List (Int × Int) := [(0, 1), (0, -1), (1, 0), (-1, 0)]

/-- The collector's wanted resource, from its modules (`robot.rs` lines
277-283). -/
def resource_filtre (modules : List ModuleRobot) : TypePixel :=
  if ModuleRobot.AnalyseChimique ∈ modules then TypePixel.Energie
  else if ModuleRobot.Forage ∈ modules then TypePixel.Minerai
  else TypePixel.Vide

/-- Write one tile of the map (`carte.donnees[cy][cx] = t`). -/
def setTuile (c : Carte) (x y : Int) (t : TypePixel) : Carte :=
  { c with donnees := setCase c.donnees x.toNat y.toNat t }

/-- The candidate moves of an explorer: the 4 neighbours filtered to be
in bounds and non-obstacle (`robot.rs` lines 185-194). -/
def deplacementsPossibles (carte : Carte) (robot : Robot) : List Pos :=
  (directionsRobot.map (fun d => (robot.x + d.1, robot.y + d.2))).filter
    (fun n => decide (0 ≤ n.1) && decide (0 ≤ n.2)
      && decide (n.1 < (carte.largeur : Int)) && decide (n.2 < (carte.hauteur : Int))
      && !(carte.est_obstacle n.1 n.2))

/-- The explorer's random move choice (`robot.rs` lines 196-208): a uniformly
drawn unvisited candidate, else a uniformly drawn candidate, else stay. -/
def choisirDeplacement (carte : Carte) (robot : Robot) (visites' : List Pos)
    (rng : FluxAleatoire) : Pos × FluxAleatoire :=
  let possibles := deplacementsPossibles carte robot
  let nonVisites := possibles.filter (fun n => !(visites'.contains n))
  if nonVisites ≠ [] then
    let t := tirer rng nonVisites.length
    (nonVisites.getD t.1 (robot.x, robot.y), t.2)
  else if possibles ≠ [] then
    let t := tirer rng possibles.length
    (possibles.getD t.1 (robot.x, robot.y), t.2)
  else ((robot.x, robot.y), rng)

/-- The explorer's resource detection at its (new) position (`robot.rs` lines
222-234): record an unrecorded Energie/Minerai discovery and switch to
`Retourner` once two or more discoveries are held. -/
def detecterRessource (carte : Carte) (r : Robot) : Robot :=
  if 0 ≤ r.x ∧ 0 ≤ r.y ∧ r.x < (carte.largeur : Int) ∧ r.y < (carte.hauteur : Int) then
    if tuileIdx carte r.x r.y = TypePixel.Energie
        ∨ tuileIdx carte r.x r.y = TypePixel.Minerai then
      if r.decouvertes.any (fun d => d.x == r.x && d.y == r.y) then r
      else
        { r with
          decouvertes := r.decouvertes ++ [Decouverte.mk (tuileIdx carte r.x r.y) r.x r.y],
          etat := if (r.decouvertes ++ [Decouverte.mk (tuileIdx carte r.x r.y) r.x r.y]).length ≥ 2
            then EtatRobot.Retourner else r.etat }
    else r
  else r

/-- The explorer `Explorer` branch of `deplacer_robots` (`robot.rs` lines
181-235): mark the current cell visited, move to a random unvisited in-bounds
non-obstacle neighbour (else any such neighbour, else stay), then detect a
resource at the new cell. -/
def explorateurExplorerStep (carte : Carte) (robot : Robot) (rng : FluxAleatoire) :
    Robot × FluxAleatoire :=
  let visites' := if (robot.x, robot.y) ∈ robot.visites then robot.visites
    else (robot.x, robot.y) :: robot.visites
  let t := choisirDeplacement carte robot visites' rng
  (detecterRessource carte
    { robot with x := t.1.1, y := t.1.2, visites := visites' }, t.2)

/-- The explorer `Retourner` branch of `deplacer_robots` (`robot.rs` lines
236-271): at the station, commit every Energie/Minerai discovery to the depot
and go back to exploring; otherwise advance one BFS step towards the station
(staying in place when no path exists). -/
def explorateurRetournerStep (carte : Carte) (station : PositionStation)
    (depot : DepotStation) (robot : Robot) : DepotStation × Robot :=
  if robot.x = (station.x : Int) ∧ robot.y = (station.y : Int) then
    let depot' := robot.decouvertes.foldl (fun dep dec =>
        if dec.resource = TypePixel.Energie ∨ dec.resource = TypePixel.Minerai
        then enregistrer_decouverte dep dec else dep) depot
    (depot', { robot with decouvertes := [], etat := EtatRobot.Explorer })
  else
    match calculer_chemin_bfs carte (robot.x, robot.y)
        ((station.x : Int), (station.y : Int)) with
    | some chemin =>
        if chemin.length > 1 then
          let n := chemin.getD 1 (robot.x, robot.y)
          (depot, { robot with x := n.1, y := n.2 })
        else (depot, robot)
    | none => (depot, robot)

/-- The target-pursuit part of the collector `Explorer` branch (`robot.rs`
lines 298-331), applied after the claiming step: walk one BFS step towards the
target, and on arrival pick up or abandon as described on C8. -/
def poursuivreCible (carte : Carte) (depot1 : DepotStation) (filtre : TypePixel)
    (robot1 : Robot) : Carte × DepotStation × Robot :=
  match robot1.cible with
  | some (cx, cy) =>
      (match calculer_chemin_bfs carte (robot1.x, robot1.y) (cx, cy) with
      | some chemin =>
          let robot2 :=
            if chemin.length > 1 then
              let n := chemin.getD 1 (robot1.x, robot1.y)
              { robot1 with x := n.1, y := n.2 }
            else robot1
          if robot2.x = cx ∧ robot2.y = cy then
            if tuileIdx carte cx cy = filtre then
              (setTuile carte cx cy TypePixel.Vide, depot1,
               { robot2 with
                 cargo := some (tuileIdx carte cx cy, cx, cy),
                 cible := none, etat := EtatRobot.Retourner })
            else
              (carte, depot1, { robot2 with cible := none, etat := EtatRobot.Retourner })
          else (carte, depot1, robot2)
      | none =>
          (carte, depot1, { robot1 with cible := none, etat := EtatRobot.Retourner }))
  | none => (carte, depot1, robot1)

/-- The collector `Explorer` branch of `deplacer_robots` (`robot.rs` lines
274-331): claim a target from the depot when idle at the station, then pursue
the current target with `poursuivreCible`. -/
def collecteurExplorerStep (carte : Carte) (station : PositionStation)
    (depot : DepotStation) (robot : Robot) : Carte × DepotStation × Robot :=
  let filtre := resource_filtre robot.modules
  let pc :=
    if robot.x = (station.x : Int) ∧ robot.y = (station.y : Int) ∧ robot.cible = none
    then prendreCible carte depot filtre
    else (depot, robot.cible)
  poursuivreCible carte pc.1 filtre { robot with cible := pc.2 }

/-- The collector `Explorer` branch of the monolithic variant
(`main.rs` lines 504-574): identical to the `robot.rs` one except that when
the resource is gone, or when no path to the target exists, only the target is
cleared — the state is left at `Explorer`. -/
def collecteurExplorerStepV0 (carte : Carte) (station : PositionStation)
    (depot : DepotStation) (robot : Robot) : Carte × DepotStation × Robot :=
  let filtre := resource_filtre robot.modules
  let pc :=
    if robot.x = (station.x : Int) ∧ robot.y = (station.y : Int) ∧ robot.cible = none
    then prendreCible carte depot filtre
    else (depot, robot.cible)
  let depot1 := pc.1
  let robot1 := { robot with cible := pc.2 }
  match robot1.cible with
  | some (cx, cy) =>
      (match calculer_chemin_bfs carte (robot1.x, robot1.y) (cx, cy) with
      | some chemin =>
          let robot2 :=
            if chemin.length > 1 then
              let n := chemin.getD 1 (robot1.x, robot1.y)
              { robot1 with x := n.1, y := n.2 }
            else robot1
          if robot2.x = cx ∧ robot2.y = cy then
            if tuileIdx carte cx cy = filtre then
              (setTuile carte cx cy TypePixel.Vide, depot1,
               { robot2 with
                 cargo := some (tuileIdx carte cx cy, cx, cy),
                 cible := none, etat := EtatRobot.Retourner })
            else
              (carte, depot1, { robot2 with cible := none })
          else (carte, depot1, robot2)
      | none =>
          (carte, depot1, { robot1 with cible := none }))
  | none => (carte, depot1, robot1)

/-- The collector `Retourner` branch of `deplacer_robots` (`robot.rs` lines
333-379): at the station, deposit the cargo (possibly spawning a collector)
and go back to exploring; otherwise advance one BFS step towards the station
(staying in place when no path exists). -/
def collecteurRetournerStep (carte : Carte) (station : PositionStation)
    (depot : DepotStation) (robot : Robot) : DepotStation × Robot × List Robot :=
  if robot.x = (station.x : Int) ∧ robot.y = (station.y : Int) then
    match robot.cargo with
    | some (resource, _, _) =>
        let dr := deposerCargo station depot resource
        (dr.1, { robot with cargo := none, etat := EtatRobot.Explorer }, dr.2)
    | none => (depot, { robot with etat := EtatRobot.Explorer }, [])
  else
    match calculer_chemin_bfs carte (robot.x, robot.y)
        ((station.x : Int), (station.y : Int)) with
    | some chemin =>
        if chemin.length > 1 then
          let n := chemin.getD 1 (robot.x, robot.y)
          (depot, { robot with x := n.1, y := n.2 }, [])
        else (depot, robot, [])
    | none => (depot, robot, [])

/-- One robot's update inside `deplacer_robots`, dispatching on role and
state. Returns the updated shared state, the updated robot and the robots
spawned (deferred by Bevy's `Commands` to after the pass). -/
def robotStep (station : PositionStation) (carte : Carte) (depot : DepotStation)
    (rng : FluxAleatoire) (robot : Robot) :
    Carte × DepotStation × FluxAleatoire × Robot × List Robot :=
  match robot.role, robot.etat with
  | RoleRobot.Explorateur, EtatRobot.Explorer =>
      let s := explorateurExplorerStep carte robot rng
      (carte, depot, s.2, s.1, [])
  | RoleRobot.Explorateur, EtatRobot.Retourner =>
      let s := explorateurRetournerStep carte station depot robot
      (carte, s.1, rng, s.2, [])
  | RoleRobot.Collecteur, EtatRobot.Explorer =>
      let s := collecteurExplorerStep carte station depot robot
      (s.1, s.2.1, rng, s.2.2, [])
  | RoleRobot.Collecteur, EtatRobot.Retourner =>
      let s := collecteurRetournerStep carte station depot robot
      (carte, s.1, rng, s.2.1, s.2.2)

/-- `deplacer_robots` in `robot.rs`: the robots are updated sequentially, each
seeing the map and depot mutations of its predecessors within the same tick;
newly spawned collectors are collected separately (they join the world only
after the pass). Result: final map, depot, draw stream, updated robots in
order, spawned robots. -/
def deplacer_robots (station : PositionStation) (carte : Carte)
    (depot : DepotStation) (rng : FluxAleatoire) :
    List Robot → Carte × DepotStation × FluxAleatoire × List Robot × List Robot
  | [] => (carte, depot, rng, [], [])
  | r :: rs =>
      let s := robotStep station carte depot rng r
      let reste := deplacer_robots station s.1 s.2.1 s.2.2.1 rs
      (reste.1, reste.2.1, reste.2.2.1, s.2.2.2.1 :: reste.2.2.2.1,
       s.2.2.2.2 ++ reste.2.2.2.2)

/-- A collector standing on the left end of `carteMur` whose target, the
right end, is walled off. -/
def robotBloque : Robot :=
  { x := 0, y := 0, etat := EtatRobot.Explorer, role := RoleRobot.Collecteur,
    decouvertes := [], cargo := none, cible := some (2, 0), visites := [],
    modules := [ModuleRobot.AnalyseChimique] }

/-- A position that is in bounds and not an Obstacle (`est_obstacle` covers
both conditions at once). -/
def PosOK (c : Carte) (r : Robot) : Prop :=
  c.est_obstacle r.x r.y = false

/-- `c'` has the same dimensions as `c` and no new obstacles. -/
def MonotoneCarte (c c' : Carte) : Prop :=
  c'.largeur = c.largeur ∧ c'.hauteur = c.hauteur
    ∧ ∀ a b : Int, c'.est_obstacle a b = true → c.est_obstacle a b = true

/-- A lone explorer at the origin, used to instantiate pass-level statements. -/
def robotTemoin : Robot :=
  { x := 0, y := 0, etat := EtatRobot.Explorer, role := RoleRobot.Explorateur,
    decouvertes := [], cargo := none, cible := none, visites := [],
    modules := [ModuleRobot.ImagerieHauteResolution] }

/-- The constantly-zero draw stream. -/
def fluxZero : FluxAleatoire := { flux := fun _ => 0, indice := 0 }

/-- A rectangular raw grid: every row has the width read off row 0, which is
what `limiter_taille_obstacles` uses as `largeur`. -/
def GrilleRectangulaire (g : List (List TypePixel)) : Prop :=
  ∀ row ∈ g, row.length = (g.getD 0 []).length

instance (g : List (List TypePixel)) : Decidable (GrilleRectangulaire g) :=
  inferInstanceAs (Decidable (∀ row ∈ g, row.length = (g.getD 0 []).length))

/-- Two raw grids with the same shape (same height, same row widths). -/
def memeForme (g g' : List (List TypePixel)) : Prop :=
  g'.length = g.length ∧ ∀ i, (g'.getD i []).length = (g.getD i []).length

theorem memeForme_refl (g : List (List TypePixel)) : memeForme g g :=
  ⟨rfl, fun _ => rfl⟩

theorem memeForme_trans {g g' g'' : List (List TypePixel)}
    (h1 : memeForme g g') (h2 : memeForme g' g'') : memeForme g g'' :=
  ⟨h2.1.trans h1.1, fun i => (h2.2 i).trans (h1.2 i)⟩

theorem getD_set_ne {α} (l : List α) (i j : Nat) (x d : α) (h : i ≠ j) :
    (l.set i x).getD j d = l.getD j d := by
  rw [List.getD_eq_getElem?_getD, List.getD_eq_getElem?_getD, List.getElem?_set_ne h]

theorem memeForme_setCase (g : List (List TypePixel)) (x y : Nat) (t : TypePixel) :
    memeForme g (setCase g x y t) := by
  constructor
  · exact List.length_set ..
  · intro i
    by_cases hiy : i = y
    · subst hiy
      by_cases hlen : i < g.length
      · unfold setCase
        rw [List.getD_eq_getElem?_getD, List.getElem?_set_self hlen, Option.getD_some,
          List.length_set]
      · unfold setCase
        rw [List.set_eq_of_length_le (Nat.le_of_not_lt hlen)]
    · unfold setCase
      rw [getD_set_ne _ _ _ _ _ (fun h => hiy h.symm)]

theorem getD_set_self (g : List (List TypePixel)) (y : Nat) (r : List TypePixel)
    (hy : y < g.length) : (g.set y r).getD y [] = r := by
  rw [List.getD_eq_getElem?_getD, List.getElem?_set_self hy, Option.getD_some]

theorem getCase_setCase_eq (g : List (List TypePixel)) (x y : Nat) (t : TypePixel)
    (hy : y < g.length) (hx : x < (g.getD y []).length) :
    getCase (setCase g x y t) x y = t := by
  unfold getCase setCase
  rw [getD_set_self g y _ hy,
    List.getD_eq_getElem?_getD ((g.getD y []).set x t) x TypePixel.Vide,
    List.getElem?_set_self hx, Option.getD_some]

theorem getCase_setCase_ne (g : List (List TypePixel)) (x y a b : Nat) (t : TypePixel)
    (h : ¬(a = x ∧ b = y)) :
    getCase (setCase g x y t) a b = getCase g a b := by
  unfold getCase setCase
  by_cases hby : b = y
  · subst hby
    have hax : a ≠ x := fun h' => h ⟨h', rfl⟩
    by_cases hylen : b < g.length
    · rw [getD_set_self g b _ hylen,
        List.getD_eq_getElem?_getD ((g.getD b []).set x t) a TypePixel.Vide,
        List.getElem?_set_ne (fun h' => hax h'.symm),
        List.getD_eq_getElem?_getD (g.getD b []) a TypePixel.Vide]
    · rw [List.set_eq_of_length_le (Nat.le_of_not_lt hylen)]
  · rw [getD_set_ne g y b _ _ (fun h' => hby h'.symm)]

theorem getCase_setCase_vide (g : List (List TypePixel)) (x y a b : Nat)
    (h : getCase (setCase g x y TypePixel.Vide) a b = TypePixel.Obstacle) :
    getCase g a b = TypePixel.Obstacle := by
  by_cases hab : a = x ∧ b = y
  · obtain ⟨rfl, rfl⟩ := hab
    by_cases hy : b < g.length
    · by_cases hx : a < (g.getD b []).length
      · rw [getCase_setCase_eq g a b _ hy hx] at h
        exact absurd h (by decide)
      · have hrow : (setCase g a b TypePixel.Vide).getD b [] = g.getD b [] := by
          unfold setCase
          rw [getD_set_self g b _ hy,
            List.set_eq_of_length_le (Nat.le_of_not_lt hx)]
        unfold getCase at h ⊢
        rw [hrow] at h
        exact h
    · unfold setCase at h
      rw [List.set_eq_of_length_le (Nat.le_of_not_lt hy)] at h
      exact h
  · rw [getCase_setCase_ne _ _ _ _ _ _ hab] at h
    exact h

theorem getCase_obstacle_borne (g : List (List TypePixel)) (a b : Nat)
    (h : getCase g a b = TypePixel.Obstacle) :
    b < g.length ∧ a < (g.getD b []).length := by
  constructor
  · by_contra hb
    unfold getCase at h
    rw [List.getD_eq_getElem?_getD g b [],
      List.getElem?_eq_none (Nat.le_of_not_lt hb)] at h
    simp at h
  · by_contra ha
    unfold getCase at h
    rw [List.getD_eq_getElem?_getD (g.getD b []) a TypePixel.Vide,
      List.getElem?_eq_none (Nat.le_of_not_lt ha)] at h
    simp at h

theorem marcheLimite_mono (L H : Nat) (dx dy : Int) (fuel : Nat) :
    ∀ (nx ny : Int) (t : Nat) (g : List (List TypePixel)) (a b : Nat),
    getCase (marcheLimite L H dx dy fuel nx ny t g).1 a b = TypePixel.Obstacle →
    getCase g a b = TypePixel.Obstacle := by
  induction fuel with
  | zero => intro nx ny t g a b h; exact h
  | succ fuel ih =>
      intro nx ny t g a b h
      rw [marcheLimite] at h
      split at h
      · by_cases hcut : t + 1 > TAILLE_MAX_OBSTACLE
        · rw [if_pos hcut] at h
          exact getCase_setCase_vide _ _ _ _ _ (ih _ _ _ _ _ _ h)
        · rw [if_neg hcut] at h
          exact ih _ _ _ _ _ _ h
      · exact h

theorem marcheLimite_taille_ge (L H : Nat) (dx dy : Int) (fuel : Nat) :
    ∀ (nx ny : Int) (t : Nat) (g : List (List TypePixel)),
    t ≤ (marcheLimite L H dx dy fuel nx ny t g).2 := by
  induction fuel with
  | zero => intro nx ny t g; exact Nat.le_refl t
  | succ fuel ih =>
      intro nx ny t g
      rw [marcheLimite]
      split
      · exact Nat.le_trans (Nat.le_succ t) (ih ..)
      · exact Nat.le_refl t

theorem marcheLimite_forme (L H : Nat) (dx dy : Int) (fuel : Nat) :
    ∀ (nx ny : Int) (t : Nat) (g : List (List TypePixel)),
    memeForme g (marcheLimite L H dx dy fuel nx ny t g).1 := by
  induction fuel with
  | zero => intro nx ny t g; exact memeForme_refl g
  | succ fuel ih =>
      intro nx ny t g
      rw [marcheLimite]
      split
      · by_cases hcut : t + 1 > TAILLE_MAX_OBSTACLE
        · rw [if_pos hcut]
          exact memeForme_trans (memeForme_setCase ..) (ih ..)
        · rw [if_neg hcut]
          exact ih ..
      · exact memeForme_refl g

theorem marcheLimite_rayon (L H : Nat) (dx dy : Int) (fuel : Nat) :
    ∀ (nx ny : Int) (t : Nat) (g : List (List TypePixel)) (a b : Nat),
    getCase (marcheLimite L H dx dy fuel nx ny t g).1 a b ≠ getCase g a b →
    ∃ k : Nat, (a : Int) = nx + k * dx ∧ (b : Int) = ny + k * dy := by
  induction fuel with
  | zero => intro nx ny t g a b h; exact absurd rfl h
  | succ fuel ih =>
      intro nx ny t g a b h
      rw [marcheLimite] at h
      split at h
      · rename_i hcond
        obtain ⟨h0x, _, h0y, _, _⟩ := hcond
        by_cases hchg : getCase
            (marcheLimite L H dx dy fuel (nx + dx) (ny + dy) (t + 1)
              (if t + 1 > TAILLE_MAX_OBSTACLE
                then setCase g nx.toNat ny.toNat TypePixel.Vide else g)).1 a b
            = getCase (if t + 1 > TAILLE_MAX_OBSTACLE
                then setCase g nx.toNat ny.toNat TypePixel.Vide else g) a b
        · have hset : getCase (if t + 1 > TAILLE_MAX_OBSTACLE
              then setCase g nx.toNat ny.toNat TypePixel.Vide else g) a b
              ≠ getCase g a b := by
            intro he
            exact h (hchg.trans he)
          by_cases hab : a = nx.toNat ∧ b = ny.toNat
          · obtain ⟨ha, hb⟩ := hab
            subst ha; subst hb
            refine ⟨0, ?_, ?_⟩
            · rw [Int.toNat_of_nonneg h0x]; simp
            · rw [Int.toNat_of_nonneg h0y]; simp
          · exfalso
            apply hset
            split
            · exact getCase_setCase_ne _ _ _ _ _ _ hab
            · rfl
        · obtain ⟨k, hk1, hk2⟩ := ih _ _ _ _ _ _ hchg
          refine ⟨k + 1, ?_, ?_⟩
          · push_cast at hk1 ⊢; linear_combination hk1
          · push_cast at hk2 ⊢; linear_combination hk2
      · exact absurd rfl h

theorem marcheLimite_garde (L H : Nat) (dx dy : Int) (fuel : Nat)
    (nx ny : Int) (t : Nat) (g : List (List TypePixel)) (a b : Nat)
    (h : ∀ k : Nat, ¬((a : Int) = nx + k * dx ∧ (b : Int) = ny + k * dy)) :
    getCase (marcheLimite L H dx dy fuel nx ny t g).1 a b = getCase g a b := by
  by_contra hne
  obtain ⟨k, hk⟩ := marcheLimite_rayon L H dx dy fuel nx ny t g a b hne
  exact h k hk

theorem marcheLimite_efface_droite (L H : Nat) :
    ∀ (k : Nat), 1 ≤ k → ∀ (fuel : Nat) (nx ny : Int) (t : Nat) (g : List (List TypePixel)),
    k ≤ fuel → 6 ≤ t + k →
    g.length = H → (∀ i, i < H → (g.getD i []).length = L) →
    (∀ j : Nat, j < k → 0 ≤ nx + (j : Int) ∧ nx + (j : Int) < (L : Int)
        ∧ 0 ≤ ny ∧ ny < (H : Int)
        ∧ getCase g (nx + (j : Int)).toNat ny.toNat = TypePixel.Obstacle) →
    getCase (marcheLimite L H 1 0 fuel nx ny t g).1
      (nx + ((k : Int) - 1)).toNat ny.toNat = TypePixel.Vide := by
  intro k
  induction k with
  | zero => intro h; exact absurd h (by decide)
  | succ k ih =>
      intro _ fuel nx ny t g hfuel ht hH hL hcells
      cases fuel with
      | zero => exact absurd hfuel (by omega)
      | succ fuel =>
          have h0 := hcells 0 (by omega)
          simp only [Nat.cast_zero, add_zero] at h0
          rw [marcheLimite, if_pos h0]
          by_cases hk0 : k = 0
          · subst hk0
            have hcut : t + 1 > TAILLE_MAX_OBSTACLE := by
              simp only [TAILLE_MAX_OBSTACLE]; omega
            rw [if_pos hcut]
            have hgarde : getCase
                (marcheLimite L H 1 0 fuel (nx + 1) (ny + 0) (t + 1)
                  (setCase g nx.toNat ny.toNat TypePixel.Vide)).1
                nx.toNat ny.toNat
                = getCase (setCase g nx.toNat ny.toNat TypePixel.Vide)
                    nx.toNat ny.toNat := by
              apply marcheLimite_garde
              intro m hm
              obtain ⟨hm1, hm2⟩ := hm
              rw [mul_one] at hm1
              omega
            have hfin : getCase (setCase g nx.toNat ny.toNat TypePixel.Vide)
                nx.toNat ny.toNat = TypePixel.Vide := by
              apply getCase_setCase_eq
              · omega
              · rw [hL ny.toNat (by omega)]; omega
            convert hgarde.trans hfin using 2
            omega
          · have hih := ih (by omega) fuel (nx + 1) (ny + 0) (t + 1)
              (if t + 1 > TAILLE_MAX_OBSTACLE
                then setCase g nx.toNat ny.toNat TypePixel.Vide else g)
              (by omega) (by omega) ?_ ?_ ?_
            · convert hih using 2 <;> omega
            · split
              · rw [(memeForme_setCase g nx.toNat ny.toNat TypePixel.Vide).1, hH]
              · exact hH
            · intro i hi
              split
              · rw [(memeForme_setCase g nx.toNat ny.toNat TypePixel.Vide).2 i]
                exact hL i hi
              · exact hL i hi
            · intro j hj
              have hc := hcells (j + 1) (by omega)
              have hpos : nx + ((j + 1 : Nat) : Int) = nx + 1 + (j : Int) := by
                push_cast; ring
              rw [hpos] at hc
              obtain ⟨hc1, hc2, hc3, hc4, hc5⟩ := hc
              refine ⟨hc1, hc2, by omega, by omega, ?_⟩
              split
              · rw [getCase_setCase_ne]
                · simpa using hc5
                · intro hab
                  obtain ⟨hab1, hab2⟩ := hab
                  omega
              · simpa using hc5

theorem marcheLimite_efface_bas (L H : Nat) :
    ∀ (k : Nat), 1 ≤ k → ∀ (fuel : Nat) (nx ny : Int) (t : Nat) (g : List (List TypePixel)),
    k ≤ fuel → 6 ≤ t + k →
    g.length = H → (∀ i, i < H → (g.getD i []).length = L) →
    (∀ j : Nat, j < k → 0 ≤ nx ∧ nx < (L : Int)
        ∧ 0 ≤ ny + (j : Int) ∧ ny + (j : Int) < (H : Int)
        ∧ getCase g nx.toNat (ny + (j : Int)).toNat = TypePixel.Obstacle) →
    getCase (marcheLimite L H 0 1 fuel nx ny t g).1
      nx.toNat (ny + ((k : Int) - 1)).toNat = TypePixel.Vide := by
  intro k
  induction k with
  | zero => intro h; exact absurd h (by decide)
  | succ k ih =>
      intro _ fuel nx ny t g hfuel ht hH hL hcells
      cases fuel with
      | zero => exact absurd hfuel (by omega)
      | succ fuel =>
          have h0 := hcells 0 (by omega)
          simp only [Nat.cast_zero, add_zero] at h0
          rw [marcheLimite, if_pos h0]
          by_cases hk0 : k = 0
          · subst hk0
            have hcut : t + 1 > TAILLE_MAX_OBSTACLE := by
              simp only [TAILLE_MAX_OBSTACLE]; omega
            rw [if_pos hcut]
            have hgarde : getCase
                (marcheLimite L H 0 1 fuel (nx + 0) (ny + 1) (t + 1)
                  (setCase g nx.toNat ny.toNat TypePixel.Vide)).1
                nx.toNat ny.toNat
                = getCase (setCase g nx.toNat ny.toNat TypePixel.Vide)
                    nx.toNat ny.toNat := by
              apply marcheLimite_garde
              intro m hm
              obtain ⟨hm1, hm2⟩ := hm
              rw [mul_one] at hm2
              omega
            have hfin : getCase (setCase g nx.toNat ny.toNat TypePixel.Vide)
                nx.toNat ny.toNat = TypePixel.Vide := by
              apply getCase_setCase_eq
              · omega
              · rw [hL ny.toNat (by omega)]; omega
            convert hgarde.trans hfin using 2
            omega
          · have hih := ih (by omega) fuel (nx + 0) (ny + 1) (t + 1)
              (if t + 1 > TAILLE_MAX_OBSTACLE
                then setCase g nx.toNat ny.toNat TypePixel.Vide else g)
              (by omega) (by omega) ?_ ?_ ?_
            · convert hih using 2 <;> omega
            · split
              · rw [(memeForme_setCase g nx.toNat ny.toNat TypePixel.Vide).1, hH]
              · exact hH
            · intro i hi
              split
              · rw [(memeForme_setCase g nx.toNat ny.toNat TypePixel.Vide).2 i]
                exact hL i hi
              · exact hL i hi
            · intro j hj
              have hc := hcells (j + 1) (by omega)
              have hpos : ny + ((j + 1 : Nat) : Int) = ny + 1 + (j : Int) := by
                push_cast; ring
              rw [hpos] at hc
              obtain ⟨hc1, hc2, hc3, hc4, hc5⟩ := hc
              refine ⟨by omega, by omega, hc3, hc4, ?_⟩
              split
              · rw [getCase_setCase_ne]
                · simpa using hc5
                · intro hab
                  obtain ⟨hab1, hab2⟩ := hab
                  omega
              · simpa using hc5

theorem scanCase_mono (L H : Nat) (g : List (List TypePixel)) (x y a b : Nat)
    (h : getCase (scanCase L H g x y) a b = TypePixel.Obstacle) :
    getCase g a b = TypePixel.Obstacle := by
  unfold scanCase at h
  split at h
  · simp only [directionsLimiteur, List.foldl_cons, List.foldl_nil] at h
    exact marcheLimite_mono _ _ _ _ _ _ _ _ _ _ _
      (marcheLimite_mono _ _ _ _ _ _ _ _ _ _ _
        (marcheLimite_mono _ _ _ _ _ _ _ _ _ _ _
          (marcheLimite_mono _ _ _ _ _ _ _ _ _ _ _ h)))
  · exact h

theorem scanCase_forme (L H : Nat) (g : List (List TypePixel)) (x y : Nat) :
    memeForme g (scanCase L H g x y) := by
  unfold scanCase
  split
  · simp only [directionsLimiteur, List.foldl_cons, List.foldl_nil]
    exact memeForme_trans (memeForme_trans (memeForme_trans
      (marcheLimite_forme ..) (marcheLimite_forme ..))
      (marcheLimite_forme ..)) (marcheLimite_forme ..)
  · exact memeForme_refl g

theorem foldl_scan_mono (step : List (List TypePixel) → Nat → List (List TypePixel))
    (hstep : ∀ g e a b, getCase (step g e) a b = TypePixel.Obstacle →
      getCase g a b = TypePixel.Obstacle) :
    ∀ (l : List Nat) (g : List (List TypePixel)) (a b : Nat),
    getCase (l.foldl step g) a b = TypePixel.Obstacle →
    getCase g a b = TypePixel.Obstacle := by
  intro l
  induction l with
  | nil => intro g a b h; exact h
  | cons e l ih => intro g a b h; exact hstep _ _ _ _ (ih _ _ _ h)

theorem foldl_scan_forme (step : List (List TypePixel) → Nat → List (List TypePixel))
    (hstep : ∀ g e, memeForme g (step g e)) :
    ∀ (l : List Nat) (g : List (List TypePixel)), memeForme g (l.foldl step g) := by
  intro l
  induction l with
  | nil => intro g; exact memeForme_refl g
  | cons e l ih => intro g; exact memeForme_trans (hstep g e) (ih (step g e))

theorem limiter_mono (g : List (List TypePixel)) (a b : Nat)
    (h : getCase (limiter_taille_obstacles g) a b = TypePixel.Obstacle) :
    getCase g a b = TypePixel.Obstacle := by
  unfold limiter_taille_obstacles at h
  exact foldl_scan_mono _
    (fun g' e a' b' h' => foldl_scan_mono _
      (fun g'' e' a'' b'' h'' => scanCase_mono _ _ _ _ _ _ _ h'') _ _ _ _ h')
    _ _ _ _ h

theorem rect_rangees (g : List (List TypePixel)) (hrect : GrilleRectangulaire g)
    (i : Nat) (hi : i < g.length) :
    (g.getD i []).length = (g.getD 0 []).length := by
  apply hrect
  rw [List.getD_eq_getElem?_getD, List.getElem?_eq_getElem hi]
  simp only [Option.getD_some]
  exact List.getElem_mem ..

theorem limiter_decomposition (g : List (List TypePixel)) (x y : Nat)
    (hx : x < (g.getD 0 []).length) (hy : y < g.length) :
    ∃ (gC : List (List TypePixel)) (l1 l2 : List Nat),
      limiter_taille_obstacles g
        = l2.foldl (fun gy y' => scanLigne (g.getD 0 []).length g.length gy y')
            (l1.foldl (fun gx x' => scanCase (g.getD 0 []).length g.length gx x' y)
              (scanCase (g.getD 0 []).length g.length gC x y))
      ∧ memeForme g gC := by
  obtain ⟨r1, r2, hr⟩ := List.append_of_mem (List.mem_range.mpr hy)
  obtain ⟨c1, c2, hc⟩ := List.append_of_mem (List.mem_range.mpr hx)
  refine ⟨c1.foldl (fun gx x' => scanCase (g.getD 0 []).length g.length gx x' y)
      (r1.foldl (fun gy y' => scanLigne (g.getD 0 []).length g.length gy y') g),
    c2, r2, ?_, ?_⟩
  · show (List.range g.length).foldl
        (fun gy y' => scanLigne (g.getD 0 []).length g.length gy y') g = _
    rw [hr, List.foldl_append, List.foldl_cons]
    simp only [scanLigne]
    rw [hc, List.foldl_append, List.foldl_cons]
  · exact memeForme_trans
      (foldl_scan_forme _ (fun g' e => foldl_scan_forme _
        (fun g'' e' => scanCase_forme _ _ g'' e' e) _ g') r1 g)
      (foldl_scan_forme _ (fun g' e => scanCase_forme _ _ g' e y) c1 _)

theorem scanCase_efface_droite (L H : Nat) (g : List (List TypePixel)) (x y : Nat)
    (hH : g.length = H) (hL : ∀ i, i < H → (g.getD i []).length = L)
    (hx : x + 5 < L) (hy : y < H)
    (hobs : ∀ j : Nat, j ≤ 5 → getCase g (x + j) y = TypePixel.Obstacle) :
    getCase (scanCase L H g x y) (x + 5) y = TypePixel.Vide := by
  unfold scanCase
  rw [if_pos (by simpa using hobs 0 (by omega))]
  simp only [directionsLimiteur, List.foldl_cons, List.foldl_nil]
  have hm1garde : ∀ (a b : Nat), (¬(a = x ∧ y + 1 ≤ b)) →
      getCase (marcheLimite L H 0 1 (L + H + 1)
        ((x : Int) + 0) ((y : Int) + 1) 1 g).1 a b = getCase g a b := by
    intro a b hab
    apply marcheLimite_garde
    intro m hm
    obtain ⟨hm1, hm2⟩ := hm
    rw [mul_zero] at hm1
    rw [mul_one] at hm2
    exact hab (by constructor <;> omega)
  have ht1 : 1 ≤ (marcheLimite L H 0 1 (L + H + 1)
      ((x : Int) + 0) ((y : Int) + 1) 1 g).2 :=
    marcheLimite_taille_ge ..
  have hf1 := marcheLimite_forme L H 0 1 (L + H + 1) ((x : Int) + 0) ((y : Int) + 1) 1 g
  have h2 := marcheLimite_efface_droite L H 5 (by omega) (L + H + 1)
      ((x : Int) + 1) ((y : Int) + 0)
      (marcheLimite L H 0 1 (L + H + 1) ((x : Int) + 0) ((y : Int) + 1) 1 g).2
      (marcheLimite L H 0 1 (L + H + 1) ((x : Int) + 0) ((y : Int) + 1) 1 g).1
      (by omega) (by omega) (by rw [hf1.1, hH]) ?_ ?_
  · have h2' : getCase (marcheLimite L H 1 0 (L + H + 1)
        ((x : Int) + 1) ((y : Int) + 0)
        (marcheLimite L H 0 1 (L + H + 1) ((x : Int) + 0) ((y : Int) + 1) 1 g).2
        (marcheLimite L H 0 1 (L + H + 1) ((x : Int) + 0) ((y : Int) + 1) 1 g).1).1
        (x + 5) y = TypePixel.Vide := by
      convert h2 using 2
    have h3 : ∀ (t : Nat) (gg : List (List TypePixel)),
        getCase (marcheLimite L H 0 (-1) (L + H + 1)
          ((x : Int) + 0) ((y : Int) + -1) t gg).1 (x + 5) y
        = getCase gg (x + 5) y := by
      intro t gg
      apply marcheLimite_garde
      intro m hm
      obtain ⟨hm1, hm2⟩ := hm
      rw [mul_zero] at hm1
      omega
    have h4 : ∀ (t : Nat) (gg : List (List TypePixel)),
        getCase (marcheLimite L H (-1) 0 (L + H + 1)
          ((x : Int) + -1) ((y : Int) + 0) t gg).1 (x + 5) y
        = getCase gg (x + 5) y := by
      intro t gg
      apply marcheLimite_garde
      intro m hm
      obtain ⟨hm1, hm2⟩ := hm
      rw [mul_neg_one] at hm1
      omega
    rw [h4, h3]
    exact h2'
  · intro i hi
    rw [hf1.2 i]
    exact hL i hi
  · intro j hj
    refine ⟨by omega, by omega, by omega, by omega, ?_⟩
    have hcoord : ((x : Int) + 1 + (j : Int)).toNat = x + (1 + j) := by omega
    have hcoordy : ((y : Int) + 0).toNat = y := by omega
    rw [hcoord, hcoordy, hm1garde _ _ (by omega)]
    exact hobs (1 + j) (by omega)

theorem scanCase_efface_bas (L H : Nat) (g : List (List TypePixel)) (x y : Nat)
    (hH : g.length = H) (hL : ∀ i, i < H → (g.getD i []).length = L)
    (hx : x < L) (hy : y + 5 < H)
    (hobs : ∀ j : Nat, j ≤ 5 → getCase g x (y + j) = TypePixel.Obstacle) :
    getCase (scanCase L H g x y) x (y + 5) = TypePixel.Vide := by
  unfold scanCase
  rw [if_pos (by simpa using hobs 0 (by omega))]
  simp only [directionsLimiteur, List.foldl_cons, List.foldl_nil]
  have h1 := marcheLimite_efface_bas L H 5 (by omega) (L + H + 1)
      ((x : Int) + 0) ((y : Int) + 1) 1 g
      (by omega) (by omega) hH hL ?_
  · have hcible : ((x : Int) + 0).toNat = x := by omega
    have hcible2 : ((y : Int) + 1 + ((5 : Nat) : Int) - 1).toNat = y + 5 := by
      push_cast; omega
    have h1' : getCase (marcheLimite L H 0 1 (L + H + 1)
        ((x : Int) + 0) ((y : Int) + 1) 1 g).1 x (y + 5) = TypePixel.Vide := by
      convert h1 using 2
    have h2 : getCase (marcheLimite L H 1 0 (L + H + 1)
        ((x : Int) + 1) ((y : Int) + 0)
        (marcheLimite L H 0 1 (L + H + 1) ((x : Int) + 0) ((y : Int) + 1) 1 g).2
        (marcheLimite L H 0 1 (L + H + 1) ((x : Int) + 0) ((y : Int) + 1) 1 g).1).1
        x (y + 5)
        = getCase (marcheLimite L H 0 1 (L + H + 1)
            ((x : Int) + 0) ((y : Int) + 1) 1 g).1 x (y + 5) := by
      apply marcheLimite_garde
      intro m hm
      obtain ⟨hm1, hm2⟩ := hm
      rw [mul_one] at hm1
      omega
    have h3 : ∀ (t : Nat) (gg : List (List TypePixel)),
        getCase (marcheLimite L H 0 (-1) (L + H + 1)
          ((x : Int) + 0) ((y : Int) + -1) t gg).1 x (y + 5)
        = getCase gg x (y + 5) := by
      intro t gg
      apply marcheLimite_garde
      intro m hm
      obtain ⟨hm1, hm2⟩ := hm
      rw [mul_neg_one] at hm2
      omega
    have h4 : ∀ (t : Nat) (gg : List (List TypePixel)),
        getCase (marcheLimite L H (-1) 0 (L + H + 1)
          ((x : Int) + -1) ((y : Int) + 0) t gg).1 x (y + 5)
        = getCase gg x (y + 5) := by
      intro t gg
      apply marcheLimite_garde
      intro m hm
      obtain ⟨hm1, hm2⟩ := hm
      rw [mul_neg_one] at hm1
      omega
    rw [h4, h3, h2]
    exact h1'
  · intro j hj
    refine ⟨by omega, by omega, by omega, by omega, ?_⟩
    have hcoord : ((x : Int) + 0).toNat = x := by omega
    have hcoordy : ((y : Int) + 1 + (j : Int)).toNat = y + (1 + j) := by omega
    rw [hcoord, hcoordy]
    exact hobs (1 + j) (by omega)

theorem scanLigne_mono (L H : Nat) (g : List (List TypePixel)) (y a b : Nat)
    (h : getCase (scanLigne L H g y) a b = TypePixel.Obstacle) :
    getCase g a b = TypePixel.Obstacle := by
  unfold scanLigne at h
  exact foldl_scan_mono _ (fun g' e a' b' h' => scanCase_mono _ _ _ _ _ _ _ h') _ _ _ _ h

/-- C4: after `limiter_taille_obstacles`, no axis-aligned run of six
consecutive obstacle cells survives, horizontally or vertically, on any
rectangular grid; and the 1×7 all-obstacle row comes out with exactly 5
obstacles and 2 empty cells. -/
theorem limiter_taille_obstacles_borne :
    (∀ (g : List (List TypePixel)) (x y : Nat), GrilleRectangulaire g →
      ¬ (∀ k, k < 6 → getCase (limiter_taille_obstacles g) (x + k) y = TypePixel.Obstacle))
    ∧ (∀ (g : List (List TypePixel)) (x y : Nat), GrilleRectangulaire g →
      ¬ (∀ k, k < 6 → getCase (limiter_taille_obstacles g) x (y + k) = TypePixel.Obstacle))
    ∧ ((limiter_taille_obstacles [List.replicate 7 TypePixel.Obstacle]).headD []).count
        TypePixel.Obstacle = 5
    ∧ ((limiter_taille_obstacles [List.replicate 7 TypePixel.Obstacle]).headD []).count
        TypePixel.Vide = 2 := by
  refine ⟨?_, ?_, by rfl, by rfl⟩
  · intro g x y hrect h6
    have hfin : ∀ k, k ≤ 5 →
        getCase (limiter_taille_obstacles g) (x + k) y = TypePixel.Obstacle :=
      fun k hk => h6 k (by omega)
    have hg : ∀ k, k ≤ 5 → getCase g (x + k) y = TypePixel.Obstacle :=
      fun k hk => limiter_mono _ _ _ (hfin k hk)
    have hyH : y < g.length := (getCase_obstacle_borne _ _ _ (hg 0 (by omega))).1
    have hxL : x + 5 < (g.getD 0 []).length := by
      rw [← rect_rangees g hrect y hyH]
      exact (getCase_obstacle_borne _ _ _ (hg 5 (by omega))).2
    obtain ⟨gC, l1, l2, heq, hforme⟩ := limiter_decomposition g x y (by omega) hyH
    have hmonoSuf : ∀ a b, getCase (limiter_taille_obstacles g) a b = TypePixel.Obstacle →
        getCase (scanCase (g.getD 0 []).length g.length gC x y) a b
          = TypePixel.Obstacle := by
      intro a b hob
      rw [heq] at hob
      exact foldl_scan_mono _
        (fun g' e a' b' h' => scanCase_mono _ _ _ _ _ _ _ h') _ _ _ _
        (foldl_scan_mono _
          (fun g' e a' b' h' => scanLigne_mono _ _ _ _ _ _ h') _ _ _ _ hob)
    have hCobs : ∀ j, j ≤ 5 → getCase gC (x + j) y = TypePixel.Obstacle :=
      fun j hj => scanCase_mono _ _ _ _ _ _ _ (hmonoSuf _ _ (hfin j hj))
    have hCL : ∀ i, i < g.length → (gC.getD i []).length = (g.getD 0 []).length := by
      intro i hi
      rw [hforme.2 i]
      exact rect_rangees g hrect i hi
    have hvide := scanCase_efface_droite (g.getD 0 []).length g.length gC x y
      hforme.1 hCL hxL hyH hCobs
    have hcontra := hmonoSuf (x + 5) y (hfin 5 (by omega))
    rw [hvide] at hcontra
    exact absurd hcontra (by decide)
  · intro g x y hrect h6
    have hfin : ∀ k, k ≤ 5 →
        getCase (limiter_taille_obstacles g) x (y + k) = TypePixel.Obstacle :=
      fun k hk => h6 k (by omega)
    have hg : ∀ k, k ≤ 5 → getCase g x (y + k) = TypePixel.Obstacle :=
      fun k hk => limiter_mono _ _ _ (hfin k hk)
    have hyH : y + 5 < g.length := (getCase_obstacle_borne _ _ _ (hg 5 (by omega))).1
    have hxL : x < (g.getD 0 []).length := by
      rw [← rect_rangees g hrect y (by omega)]
      exact (getCase_obstacle_borne _ _ _ (hg 0 (by omega))).2
    obtain ⟨gC, l1, l2, heq, hforme⟩ := limiter_decomposition g x y hxL (by omega)
    have hmonoSuf : ∀ a b, getCase (limiter_taille_obstacles g) a b = TypePixel.Obstacle →
        getCase (scanCase (g.getD 0 []).length g.length gC x y) a b
          = TypePixel.Obstacle := by
      intro a b hob
      rw [heq] at hob
      exact foldl_scan_mono _
        (fun g' e a' b' h' => scanCase_mono _ _ _ _ _ _ _ h') _ _ _ _
        (foldl_scan_mono _
          (fun g' e a' b' h' => scanLigne_mono _ _ _ _ _ _ h') _ _ _ _ hob)
    have hCobs : ∀ j, j ≤ 5 → getCase gC x (y + j) = TypePixel.Obstacle :=
      fun j hj => scanCase_mono _ _ _ _ _ _ _ (hmonoSuf _ _ (hfin j hj))
    have hCL : ∀ i, i < g.length → (gC.getD i []).length = (g.getD 0 []).length := by
      intro i hi
      rw [hforme.2 i]
      exact rect_rangees g hrect i hi
    have hvide := scanCase_efface_bas (g.getD 0 []).length g.length gC x y
      hforme.1 hCL hxL hyH hCobs
    have hcontra := hmonoSuf x (y + 5) (hfin 5 (by omega))
    rw [hvide] at hcontra
    exact absurd hcontra (by decide)

/-- Witness for C4: the 1×7 all-obstacle row has no 6-run after limiting. -/
theorem limiter_taille_obstacles_borne_temoin :
    ¬ (∀ k, k < 6 →
      getCase (limiter_taille_obstacles [List.replicate 7 TypePixel.Obstacle]) (0 + k) 0
        = TypePixel.Obstacle) :=
  limiter_taille_obstacles_borne.1 [List.replicate 7 TypePixel.Obstacle] 0 0 (by decide)

theorem chaineRetour_fuel_mono (cf : List (Pos × Pos)) (dep : Pos) :
    ∀ (fuel fuel' : Nat) (x : Pos) (l : List Pos), fuel ≤ fuel' →
    chaineRetour cf dep fuel x = some l → chaineRetour cf dep fuel' x = some l := by
  intro fuel
  induction fuel with
  | zero => intro fuel' x l _ h; exact absurd h (by simp [chaineRetour])
  | succ fuel ih =>
      intro fuel' x l hle h
      cases fuel' with
      | zero => exact absurd hle (by omega)
      | succ fuel' =>
          by_cases hxd : x = dep
          · rw [chaineRetour, if_pos hxd] at h
            rw [chaineRetour, if_pos hxd]
            exact h
          · rw [chaineRetour, if_neg hxd] at h
            rw [chaineRetour, if_neg hxd]
            cases hlk : lookupPos cf x with
            | none => rw [hlk] at h; simp at h
            | some prev =>
                rw [hlk, Option.some_bind] at h
                rw [Option.some_bind]
                simp only [Option.map_eq_some'] at h
                obtain ⟨l', hl', rfl⟩ := h
                simp only [Option.map_eq_some']
                exact ⟨l', ih fuel' prev l' (by omega) hl', rfl⟩

theorem chaineRetour_ext (cf : List (Pos × Pos)) (dep k v : Pos) :
    ∀ (fuel : Nat) (x : Pos) (l : List Pos),
    chaineRetour cf dep fuel x = some l → (∀ y ∈ l, y ≠ k) →
    chaineRetour ((k, v) :: cf) dep fuel x = some l := by
  intro fuel
  induction fuel with
  | zero => intro x l h; exact absurd h (by simp [chaineRetour])
  | succ fuel ih =>
      intro x l h hk
      by_cases hxd : x = dep
      · rw [chaineRetour, if_pos hxd] at h
        rw [chaineRetour, if_pos hxd]
        exact h
      · rw [chaineRetour, if_neg hxd] at h
        rw [chaineRetour, if_neg hxd]
        cases hlk : lookupPos cf x with
        | none => rw [hlk] at h; simp at h
        | some prev =>
            rw [hlk, Option.some_bind] at h
            simp only [Option.map_eq_some'] at h
            obtain ⟨l', hl', rfl⟩ := h
            have hxk : x ≠ k := hk x (List.mem_cons_self ..)
            have hlk' : lookupPos ((k, v) :: cf) x = some prev := by
              unfold lookupPos at hlk ⊢
              rw [List.find?_cons_of_neg]
              · exact hlk
              · simp only [beq_iff_eq]
                intro h'
                exact hxk h'.symm
            rw [hlk', Option.some_bind]
            simp only [Option.map_eq_some']
            exact ⟨l', ih prev l' hl'
              (fun y hy => hk y (List.mem_cons_of_mem _ hy)), rfl⟩

theorem chaineRetour_tete (cf : List (Pos × Pos)) (dep : Pos) :
    ∀ (fuel : Nat) (x : Pos) (l : List Pos),
    chaineRetour cf dep fuel x = some l → ∃ l', l = x :: l' := by
  intro fuel
  induction fuel with
  | zero => intro x l h; exact absurd h (by simp [chaineRetour])
  | succ fuel _ =>
      intro x l h
      by_cases hxd : x = dep
      · rw [chaineRetour, if_pos hxd] at h
        exact ⟨[], by simpa using h.symm⟩
      · rw [chaineRetour, if_neg hxd] at h
        cases hlk : lookupPos cf x with
        | none => rw [hlk] at h; simp at h
        | some prev =>
            rw [hlk, Option.some_bind] at h
            simp only [Option.map_eq_some'] at h
            obtain ⟨l', _, rfl⟩ := h
            exact ⟨l', rfl⟩

theorem estChemin_non_vide {c : Carte} {dep arr : Pos} {p : List Pos}
    (h : estChemin c dep arr p) : p ≠ [] := by
  intro hnil
  rw [hnil] at h
  exact absurd h.1 (by simp)

theorem estChemin_longueur {c : Carte} {dep arr : Pos} {p : List Pos}
    (h : estChemin c dep arr p) : 1 ≤ p.length := by
  have := estChemin_non_vide h
  cases p with
  | nil => exact absurd rfl this
  | cons a l => simp

theorem estChemin_extension {c : Carte} {dep mid n : Pos} {l : List Pos}
    (hmid : estChemin c dep mid l) (hadj : adjacentB mid n = true)
    (hobs : c.est_obstacle n.1 n.2 = false) :
    estChemin c dep n (l ++ [n]) := by
  obtain ⟨hh, hl, hc, ho⟩ := hmid
  refine ⟨?_, ?_, ?_, ?_⟩
  · cases l with
    | nil => exact absurd hh (by simp)
    | cons a l' => simpa using hh
  · rw [List.getLast?_concat]
  · rw [List.chain'_append]
    refine ⟨hc, List.chain'_singleton _, ?_⟩
    intro x hx y hy
    have hx' : mid = x := by
      rw [hl] at hx
      simpa using hx
    have hy' : n = y := by simpa using hy
    rw [show x = mid from hx'.symm, show y = n from hy'.symm]
    exact hadj
  · intro q hq
    rcases List.mem_append.mp hq with hq | hq
    · exact ho q hq
    · have : q = n := by simpa using hq
      rw [this]
      exact hobs

theorem BonneChaine_ext {c : Carte} {dep : Pos} {cf : List (Pos × Pos)}
    {visites : List Pos} {x : Pos} {n : Nat} (nouveau v0 : Pos)
    (h : BonneChaine c dep cf visites x n) (hnv : nouveau ∉ visites) :
    BonneChaine c dep ((nouveau, v0) :: cf) (nouveau :: visites) x n := by
  obtain ⟨l, hcr, hlen, hmin, hnodes⟩ := h
  refine ⟨l, ?_, hlen, hmin, fun y hy => List.mem_cons_of_mem _ (hnodes y hy)⟩
  have hext := chaineRetour_ext cf dep nouveau v0 (cf.length + 1) x l hcr
    (fun y hy hyk => hnv (hyk ▸ hnodes y hy))
  exact chaineRetour_fuel_mono _ _ _ _ _ _ (by simp) hext

theorem adjacentB_de_direction {courant n : Pos} {dd : Int × Int}
    (hdd : dd ∈ directionsBFS) (hn : n = (courant.1 + dd.1, courant.2 + dd.2)) :
    adjacentB courant n = true := by
  unfold adjacentB
  rw [List.any_eq_true]
  exact ⟨dd, hdd, by rw [hn]; exact beq_self_eq_true _⟩

theorem adjacentB_vers_direction {z y : Pos} (h : adjacentB z y = true) :
    ∃ dd ∈ directionsBFS, y = (z.1 + dd.1, z.2 + dd.2) := by
  unfold adjacentB at h
  rw [List.any_eq_true] at h
  obtain ⟨dd, hdd, hy⟩ := h
  exact ⟨dd, hdd, by simpa using hy⟩

theorem couvert_succ {c : Carte} {depart : Pos} {visites file : List Pos} {d : Nat}
    (hcouv : ∀ y r, estChemin c depart y r → r.length ≤ d + 1 → y ∈ visites)
    (hexp : ∀ x ∈ visites, x ∉ file → ∀ dd ∈ directionsBFS,
      c.est_obstacle (x.1 + dd.1) (x.2 + dd.2) = false →
      (x.1 + dd.1, x.2 + dd.2) ∈ visites)
    (hfile : ∀ x ∈ file, ∀ r, estChemin c depart x r → d + 2 ≤ r.length) :
    ∀ y r, estChemin c depart y r → r.length ≤ d + 2 → y ∈ visites := by
  intro y r hr hlen
  by_cases hshort : r.length ≤ d + 1
  · exact hcouv y r hr hshort
  have hlen2 : r.length = d + 2 := by omega
  have hrne : r ≠ [] := estChemin_non_vide hr
  have hsplit : r.dropLast ++ [r.getLast hrne] = r := List.dropLast_append_getLast hrne
  have hyval : r.getLast hrne = y := by
    have h1 := hr.2.1
    rw [List.getLast?_eq_getLast r hrne] at h1
    exact Option.some_injective _ h1
  have hlen' : r.dropLast.length = d + 1 := by
    rw [List.length_dropLast]; omega
  have hr'ne : r.dropLast ≠ [] := by
    intro hnil
    rw [hnil] at hlen'
    simp at hlen'
  have hz := List.getLast?_eq_getLast r.dropLast hr'ne
  set z := r.dropLast.getLast hr'ne with hzdef
  have hchemin' : estChemin c depart z r.dropLast := by
    obtain ⟨hh, hl, hc, ho⟩ := hr
    refine ⟨?_, hz, ?_, ?_⟩
    · rw [← hsplit] at hh
      cases hcc : r.dropLast with
      | nil => exact absurd hcc hr'ne
      | cons a l'' =>
          rw [hcc] at hh
          simpa using hh
    · rw [← hsplit] at hc
      exact (List.chain'_append.mp hc).1
    · intro q hq
      apply ho
      rw [← hsplit]
      exact List.mem_append_left _ hq
  have hzvis : z ∈ visites := hcouv z r.dropLast hchemin' (by omega)
  have hznf : z ∉ file := by
    intro hzf
    have := hfile z hzf r.dropLast hchemin'
    omega
  have hadj : adjacentB z y = true := by
    obtain ⟨_, _, hc, _⟩ := hr
    rw [← hsplit] at hc
    have hj := (List.chain'_append.mp hc).2.2
    have := hj z (by rw [hz]; rfl) (r.getLast hrne) (by simp)
    rwa [hyval] at this
  obtain ⟨dd, hdd, hy⟩ := adjacentB_vers_direction hadj
  have hyobs : c.est_obstacle y.1 y.2 = false := by
    apply hr.2.2.2
    rw [← hsplit, hyval]
    exact List.mem_append_right _ (by simp)
  rw [hy]
  exact hexp z hzvis hznf dd hdd (by rw [hy] at hyobs; exact hyobs)

theorem expansion_maintient (c : Carte) (depart arrivee : Pos) :
    ∀ (ds : List (Int × Int)) (visites file : List Pos) (cf : List (Pos × Pos))
      (d : Nat) (courant : Pos),
    (∀ dd ∈ ds, dd ∈ directionsBFS) →
    courant ∈ visites →
    BonneChaine c depart cf visites courant (d + 1) →
    courant ∉ file →
    (∀ dd ∈ directionsBFS, dd ∉ ds →
        c.est_obstacle (courant.1 + dd.1) (courant.2 + dd.2) = false →
        (courant.1 + dd.1, courant.2 + dd.2) ∈ visites) →
    depart ∈ visites →
    arrivee ∉ visites →
    (∀ x ∈ file, x ∈ visites) →
    file.Nodup →
    (∃ fA fB, file = fA ++ fB
      ∧ (∀ x ∈ fA, BonneChaine c depart cf visites x (d + 1))
      ∧ (∀ x ∈ fB, BonneChaine c depart cf visites x (d + 2))) →
    (∀ y r, estChemin c depart y r → r.length ≤ d + 1 → y ∈ visites) →
    (∀ x ∈ visites, x ∉ file → x ≠ courant → ∀ dd ∈ directionsBFS,
        c.est_obstacle (x.1 + dd.1) (x.2 + dd.2) = false →
        (x.1 + dd.1, x.2 + dd.2) ∈ visites) →
    (match expansionBFS c arrivee courant ds visites file cf with
     | Sum.inl (v', f', cf') => InvBFS c depart arrivee v' f' cf' d
     | Sum.inr cf' => ∃ l, chaineRetour cf' depart (cf'.length + 1) arrivee = some l
         ∧ estChemin c depart arrivee l.reverse
         ∧ ∀ r, estChemin c depart arrivee r → l.length ≤ r.length) := by
  intro ds
  induction ds with
  | nil =>
      intro visites file cf d courant hds hcv hchain hcnf hproc hdv hanv hfv hfn
        hcouches hcouv hexp
      rw [expansionBFS]
      exact {
        dep_vis := hdv
        arr_nvis := hanv
        file_vis := hfv
        file_nodup := hfn
        couches := hcouches
        couvert := hcouv
        expanses := by
          intro x hx hxf dd hdd hobs
          by_cases hxc : x = courant
          · subst hxc
            exact hproc dd hdd (by simp) hobs
          · exact hexp x hx hxf hxc dd hdd hobs }
  | cons dho ds' ih =>
      intro visites file cf d courant hds hcv hchain hcnf hproc hdv hanv hfv hfn
        hcouches hcouv hexp
      rw [expansionBFS]
      by_cases hcond : (c.est_obstacle (courant.1 + dho.1) (courant.2 + dho.2) = false
          ∧ (courant.1 + dho.1, courant.2 + dho.2) ∉ visites)
      · rw [if_pos hcond]
        by_cases harr : (courant.1 + dho.1, courant.2 + dho.2) = arrivee
        · rw [if_pos harr]
          obtain ⟨lc, hlc, hlen, ⟨hm1, hm2⟩, hnodes⟩ := hchain
          have hnedep : ¬ arrivee = depart := fun h => hanv (h ▸ hdv)
          refine ⟨arrivee :: lc, ?_, ?_, ?_⟩
          · have hlenc : (((courant.1 + dho.1, courant.2 + dho.2), courant) :: cf).length + 1
                = cf.length + 1 + 1 := by simp
            rw [hlenc, chaineRetour, if_neg hnedep]
            have hlook : lookupPos (((courant.1 + dho.1, courant.2 + dho.2), courant) :: cf)
                arrivee = some courant := by
              unfold lookupPos
              rw [List.find?_cons_of_pos]
              · rfl
              · rw [harr]; exact beq_self_eq_true _
            rw [hlook, Option.some_bind]
            have hext : chaineRetour (((courant.1 + dho.1, courant.2 + dho.2), courant) :: cf)
                depart (cf.length + 1) courant = some lc :=
              chaineRetour_ext cf depart _ courant (cf.length + 1) courant lc hlc
                (fun y hy hyk => hcond.2 (hyk ▸ hnodes y hy))
            rw [hext]
            rfl
          · rw [List.reverse_cons]
            exact estChemin_extension hm1
              (adjacentB_de_direction (hds dho (List.mem_cons_self ..)) harr.symm)
              (by rw [← harr]; exact hcond.1)
          · intro r hrr
            rw [List.length_cons, hlen]
            by_contra hcon
            push_neg at hcon
            exact hanv (hcouv arrivee r hrr (by omega))
        · rw [if_neg harr]
          obtain ⟨lc, hlc, hlen, ⟨hm1, hm2⟩, hnodes⟩ := hchain
          have hBCn : BonneChaine c depart
              (((courant.1 + dho.1, courant.2 + dho.2), courant) :: cf)
              ((courant.1 + dho.1, courant.2 + dho.2) :: visites)
              (courant.1 + dho.1, courant.2 + dho.2) (d + 2) := by
            have hnedep : ¬ (courant.1 + dho.1, courant.2 + dho.2) = depart :=
              fun h => hcond.2 (h ▸ hdv)
            refine ⟨(courant.1 + dho.1, courant.2 + dho.2) :: lc, ?_, by simp [hlen], ⟨?_, ?_⟩, ?_⟩
            · have hlenc : ((((courant.1 + dho.1, courant.2 + dho.2), courant) :: cf).length + 1)
                  = cf.length + 1 + 1 := by simp
              rw [hlenc, chaineRetour, if_neg hnedep]
              have hlook : lookupPos (((courant.1 + dho.1, courant.2 + dho.2), courant) :: cf)
                  (courant.1 + dho.1, courant.2 + dho.2) = some courant := by
                unfold lookupPos
                rw [List.find?_cons_of_pos]
                · rfl
                · exact beq_self_eq_true _
              rw [hlook, Option.some_bind]
              have hext := chaineRetour_ext cf depart
                (courant.1 + dho.1, courant.2 + dho.2) courant (cf.length + 1) courant lc hlc
                (fun y hy hyk => hcond.2 (hyk ▸ hnodes y hy))
              rw [hext]
              rfl
            · rw [List.reverse_cons]
              exact estChemin_extension hm1
                (adjacentB_de_direction (hds dho (List.mem_cons_self ..)) rfl)
                hcond.1
            · intro r hrr
              rw [List.length_cons, hlen]
              by_contra hcon
              push_neg at hcon
              exact hcond.2 (hcouv _ r hrr (by omega))
            · intro y hy
              rcases List.mem_cons.mp hy with hy | hy
              · rw [hy]; exact List.mem_cons_self ..
              · exact List.mem_cons_of_mem _ (hnodes y hy)
          have hrepack : BonneChaine c depart cf visites courant (d + 1) :=
            ⟨lc, hlc, hlen, ⟨hm1, hm2⟩, hnodes⟩
          refine ih ((courant.1 + dho.1, courant.2 + dho.2) :: visites)
            (file ++ [(courant.1 + dho.1, courant.2 + dho.2)])
            (((courant.1 + dho.1, courant.2 + dho.2), courant) :: cf) d courant
            (fun dd hdd => hds dd (List.mem_cons_of_mem _ hdd))
            (List.mem_cons_of_mem _ hcv)
            (BonneChaine_ext _ _ hrepack hcond.2)
            ?_ ?_ (List.mem_cons_of_mem _ hdv) ?_ ?_ ?_ ?_ ?_ ?_
          · intro hmem
            rcases List.mem_append.mp hmem with hmem | hmem
            · exact hcnf hmem
            · have : courant = (courant.1 + dho.1, courant.2 + dho.2) := by simpa using hmem
              exact hcond.2 (this ▸ hcv)
          · intro dd hdd hdds hobs
            by_cases hddh : dd = dho
            · subst hddh
              exact List.mem_cons_self ..
            · exact List.mem_cons_of_mem _
                (hproc dd hdd (fun hmem => (List.mem_cons.mp hmem).elim
                  (fun h => hddh h) (fun h => hdds h)) hobs)
          · intro hmem
            rcases List.mem_cons.mp hmem with hmem | hmem
            · exact harr hmem.symm
            · exact hanv hmem
          · intro x hx
            rcases List.mem_append.mp hx with hx | hx
            · exact List.mem_cons_of_mem _ (hfv x hx)
            · have : x = (courant.1 + dho.1, courant.2 + dho.2) := by simpa using hx
              rw [this]
              exact List.mem_cons_self ..
          · rw [List.nodup_append]
            refine ⟨hfn, List.nodup_singleton _, ?_⟩
            intro a ha hamem
            have : a = (courant.1 + dho.1, courant.2 + dho.2) := by simpa using hamem
            exact hcond.2 (this ▸ hfv a ha)
          · obtain ⟨fA, fB, hfsplit, hA, hB⟩ := hcouches
            refine ⟨fA, fB ++ [(courant.1 + dho.1, courant.2 + dho.2)],
              by rw [hfsplit, List.append_assoc], ?_, ?_⟩
            · intro x hx
              exact BonneChaine_ext _ _ (hA x hx) hcond.2
            · intro x hx
              rcases List.mem_append.mp hx with hx | hx
              · exact BonneChaine_ext _ _ (hB x hx) hcond.2
              · have : x = (courant.1 + dho.1, courant.2 + dho.2) := by simpa using hx
                rw [this]
                exact hBCn
          · intro y r hr hl
            exact List.mem_cons_of_mem _ (hcouv y r hr hl)
          · intro x hx hxf hxc dd hdd hobs
            rcases List.mem_cons.mp hx with hx | hx
            · exfalso
              apply hxf
              rw [hx]
              exact List.mem_append_right _ (List.mem_cons_self ..)
            · exact List.mem_cons_of_mem _
                (hexp x hx (fun hmem => hxf (List.mem_append_left _ hmem)) hxc dd hdd hobs)
      · rw [if_neg hcond]
        refine ih visites file cf d courant
          (fun dd hdd => hds dd (List.mem_cons_of_mem _ hdd))
          hcv hchain hcnf ?_ hdv hanv hfv hfn hcouches hcouv hexp
        push_neg at hcond
        intro dd hdd hdds hobs
        by_cases hddh : dd = dho
        · subst hddh
          exact hcond hobs
        · exact hproc dd hdd (fun hmem => (List.mem_cons.mp hmem).elim
            (fun h => hddh h) (fun h => hdds h)) hobs

theorem couches_normalise {c : Carte} {depart arrivee : Pos}
    {visites file' : List Pos} {cf : List (Pos × Pos)} {d : Nat} {courant : Pos}
    (inv : InvBFS c depart arrivee visites (courant :: file') cf d) :
    ∃ d', InvBFS c depart arrivee visites (courant :: file') cf d'
      ∧ BonneChaine c depart cf visites courant (d' + 1)
      ∧ ∃ fA' fB', file' = fA' ++ fB'
          ∧ (∀ x ∈ fA', BonneChaine c depart cf visites x (d' + 1))
          ∧ (∀ x ∈ fB', BonneChaine c depart cf visites x (d' + 2)) := by
  obtain ⟨fA, fB, hsplit, hA, hB⟩ := inv.couches
  cases fA with
  | cons a fA'' =>
      rw [List.cons_append] at hsplit
      obtain ⟨h1, h2⟩ := List.cons.inj hsplit
      refine ⟨d, inv, by rw [h1]; exact hA a (List.mem_cons_self ..),
        fA'', fB, h2, fun x hx => hA x (List.mem_cons_of_mem _ hx), hB⟩
  | nil =>
      rw [List.nil_append] at hsplit
      have hfile_min : ∀ x ∈ courant :: file', ∀ r, estChemin c depart x r →
          d + 2 ≤ r.length := by
        intro x hx r hr
        obtain ⟨l, _, hlen, ⟨_, hmin⟩, _⟩ := hB x (hsplit ▸ hx)
        have := hmin r hr
        omega
      have hcouv' := couvert_succ inv.couvert inv.expanses hfile_min
      refine ⟨d + 1, ?_, ?_, ?_⟩
      · exact { inv with
          couches := ⟨courant :: file', [], by simp,
            fun x hx => hB x (hsplit ▸ hx), by simp⟩
          couvert := hcouv' }
      · exact hB courant (hsplit ▸ List.mem_cons_self ..)
      · exact ⟨file', [], by simp,
          fun x hx => hB x (hsplit ▸ List.mem_cons_of_mem _ hx), by simp⟩

theorem boucle_correcte (c : Carte) (depart arrivee : Pos) :
    ∀ (fuel : Nat) (visites file : List Pos) (cf : List (Pos × Pos)) (d : Nat),
    InvBFS c depart arrivee visites file cf d →
    ∀ p, boucleBFS c depart arrivee fuel visites file cf = some p →
    estChemin c depart arrivee p
      ∧ ∀ r, estChemin c depart arrivee r → p.length ≤ r.length := by
  intro fuel
  induction fuel with
  | zero =>
      intro visites file cf d _ p h
      exact absurd h (by simp [boucleBFS])
  | succ fuel ih =>
      intro visites file cf d inv p h
      cases file with
      | nil =>
          rw [boucleBFS] at h
          exact absurd h (by simp)
      | cons courant file' =>
          rw [boucleBFS] at h
          obtain ⟨d', inv', hchain, fA', fB', hsplit', hA', hB'⟩ := couches_normalise inv
          have hnof : courant ∉ file' := by
            have := inv'.file_nodup
            rw [List.nodup_cons] at this
            exact this.1
          have hnodup' : file'.Nodup := by
            have := inv'.file_nodup
            rw [List.nodup_cons] at this
            exact this.2
          have hexp := expansion_maintient c depart arrivee directionsBFS visites file' cf
            d' courant
            (fun dd hdd => hdd)
            (inv'.file_vis courant (List.mem_cons_self ..))
            hchain hnof
            (fun dd hdd hdds _ => absurd hdd hdds)
            inv'.dep_vis inv'.arr_nvis
            (fun x hx => inv'.file_vis x (List.mem_cons_of_mem _ hx))
            hnodup'
            ⟨fA', fB', hsplit', hA', hB'⟩
            inv'.couvert
            (fun x hx hxf hxc dd hdd hobs => inv'.expanses x hx
              (fun hmem => (List.mem_cons.mp hmem).elim
                (fun h' => hxc h') (fun h' => hxf h'))
              dd hdd hobs)
          cases hres : expansionBFS c arrivee courant directionsBFS visites file' cf with
          | inr cf' =>
              simp only [hres] at h
              simp only [hres] at hexp
              obtain ⟨l, hl, hest, hmin⟩ := hexp
              rw [hl] at h
              simp only [Option.map_some'] at h
              have hp : p = l.reverse := by
                exact (Option.some_injective _ h).symm
              rw [hp]
              refine ⟨hest, ?_⟩
              intro r hr
              rw [List.length_reverse]
              exact hmin r hr
          | inl triple =>
              obtain ⟨v', f', cf'⟩ := triple
              simp only [hres] at h
              simp only [hres] at hexp
              exact ih v' f' cf' d' hexp p h

theorem calculer_chemin_bfs_sain (c : Carte) (dep arr : Pos) (p : List Pos)
    (h : calculer_chemin_bfs c dep arr = some p)
    (hnd : dep ≠ arr ∨ c.est_obstacle dep.1 dep.2 = false) :
    estChemin c dep arr p ∧ ∀ r, estChemin c dep arr r → p.length ≤ r.length := by
  unfold calculer_chemin_bfs at h
  by_cases hda : dep = arr
  · rw [if_pos hda] at h
    have hp : p = [dep] := by
      have := Option.some_injective _ h
      exact this.symm
    have hobs : c.est_obstacle dep.1 dep.2 = false := by
      rcases hnd with hnd | hnd
      · exact absurd hda hnd
      · exact hnd
    subst hda
    rw [hp]
    constructor
    · refine ⟨rfl, rfl, List.chain'_singleton _, ?_⟩
      intro q hq
      have hq' : q = dep := by simpa using hq
      rw [hq']
      exact hobs
    · intro r hr
      simpa using estChemin_longueur hr
  · rw [if_neg hda] at h
    by_cases hobs2 : (c.est_obstacle dep.1 dep.2 || c.est_obstacle arr.1 arr.2) = true
    · rw [if_pos hobs2] at h
      exact absurd h (by simp)
    · rw [if_neg hobs2] at h
      rw [Bool.or_eq_true] at hobs2
      push_neg at hobs2
      have hdo : c.est_obstacle dep.1 dep.2 = false :=
        Bool.not_eq_true _ ▸ Bool.eq_false_iff.mpr hobs2.1
      have hchaineDep : BonneChaine c dep [] [dep] dep 1 := by
        refine ⟨[dep], ?_, rfl, ⟨?_, ?_⟩, ?_⟩
        · rw [chaineRetour, if_pos rfl]
        · refine ⟨rfl, rfl, List.chain'_singleton _, ?_⟩
          intro q hq
          have hq' : q = dep := by simpa using hq
          rw [hq']
          exact hdo
        · intro r hr
          simpa using estChemin_longueur hr
        · intro y hy
          simpa using hy
      have inv0 : InvBFS c dep arr [dep] [dep] [] 0 := by
        refine {
          dep_vis := List.mem_cons_self ..
          arr_nvis := ?_
          file_vis := fun x hx => hx
          file_nodup := List.nodup_singleton _
          couches := ⟨[dep], [], by simp, ?_, by simp⟩
          couvert := ?_
          expanses := ?_ }
        · intro hmem
          have : arr = dep := by simpa using hmem
          exact hda this.symm
        · intro x hx
          have hx' : x = dep := by simpa using hx
          rw [hx']
          exact hchaineDep
        · intro y r hr hlen
          cases r with
          | nil => exact absurd rfl (estChemin_non_vide hr)
          | cons a t =>
              cases t with
              | nil =>
                  have ha : a = dep := by simpa using hr.1
                  have hy : y = a := by
                    have h2 := hr.2.1
                    simp only [List.getLast?_singleton] at h2
                    exact (Option.some_injective _ h2).symm
                  rw [hy, ha]
                  exact List.mem_cons_self ..
              | cons b t' => simp at hlen
        · intro x hx hxf
          exact absurd hx hxf
      exact boucle_correcte c dep arr _ [dep] [dep] [] 0 inv0 p h

/-- C1 (amended): whenever `calculer_chemin_bfs` returns `Some(path)` and we
are not in the degenerate case where start = goal sits on an Obstacle (or out
of bounds), the path starts at the start, ends at the goal, every consecutive
pair of positions is 4-adjacent, no position on it is an Obstacle or out of
bounds, and its length is minimal among all obstacle-avoiding 4-connected
paths; on the obstacle-free 3×3 map, the path from (0,0) to (2,2) has exactly
5 positions. -/
theorem calculer_chemin_bfs_correct :
    (∀ (c : Carte) (dep arr : Pos) (p : List Pos), CarteWF c →
      calculer_chemin_bfs c dep arr = some p →
      (dep ≠ arr ∨ c.est_obstacle dep.1 dep.2 = false) →
      estChemin c dep arr p ∧ ∀ r, estChemin c dep arr r → p.length ≤ r.length)
    ∧ (calculer_chemin_bfs carte3x3 (0, 0) (2, 2)).map List.length = some 5 := by
  constructor
  · intro c dep arr p _ h hnd
    exact calculer_chemin_bfs_sain c dep arr p h hnd
  · rfl

/-- Counterexample for C1 as frozen: when start = goal on the 1×1 all-Obstacle
map, the function returns the one-position path `[start]`, and that position
is an Obstacle — so "no position on the path is an Obstacle" fails. -/
theorem calculer_chemin_bfs_contre_exemple :
    calculer_chemin_bfs carteObstacle1 (0, 0) (0, 0) = some [(0, 0)]
    ∧ carteObstacle1.est_obstacle 0 0 = true
    ∧ ¬ estChemin carteObstacle1 (0, 0) (0, 0) [(0, 0)] := by
  refine ⟨rfl, rfl, ?_⟩
  intro h
  exact absurd (h.2.2.2 (0, 0) (List.mem_cons_self ..)) (by decide)

/-- Witness for C1 at the concrete 3×3 map. -/
theorem calculer_chemin_bfs_correct_temoin :
    estChemin carte3x3 (0, 0) (2, 2) [(0, 0), (0, 1), (0, 2), (1, 2), (2, 2)] :=
  (calculer_chemin_bfs_correct.1 carte3x3 (0, 0) (2, 2)
    [(0, 0), (0, 1), (0, 2), (1, 2), (2, 2)] (by decide) (by rfl)
    (Or.inl (by decide))).1

/-- C2 (amended): for distinct start and goal, the pathfinder returns `none`
whenever start or goal is an Obstacle or out of bounds, and returns `none`
whenever the goal is unreachable (no obstacle-avoiding 4-connected path
exists); when start = goal the function instead returns `Some([start])`
without any obstacle check. -/
theorem calculer_chemin_bfs_echecs :
    (∀ (c : Carte) (dep arr : Pos), CarteWF c → dep ≠ arr →
      (c.est_obstacle dep.1 dep.2 = true ∨ c.est_obstacle arr.1 arr.2 = true) →
      calculer_chemin_bfs c dep arr = none)
    ∧ (∀ (c : Carte) (dep arr : Pos), CarteWF c → dep ≠ arr →
      (∀ r, ¬ estChemin c dep arr r) →
      calculer_chemin_bfs c dep arr = none) := by
  constructor
  · intro c dep arr _ hda hobs
    unfold calculer_chemin_bfs
    rw [if_neg hda]
    have hcond : (c.est_obstacle dep.1 dep.2 || c.est_obstacle arr.1 arr.2) = true := by
      rcases hobs with h | h <;> simp [h]
    rw [if_pos hcond]
  · intro c dep arr _ hda hno
    cases hres : calculer_chemin_bfs c dep arr with
    | none => rfl
    | some p =>
        have hsain := calculer_chemin_bfs_sain c dep arr p hres (Or.inl hda)
        exact absurd hsain.1 (hno p)

/-- Counterexample for C2 as frozen: the same degenerate input — start = goal
on an Obstacle — yields `Some` rather than the claimed `None`. -/
theorem calculer_chemin_bfs_echecs_contre_exemple :
    carteObstacle1.est_obstacle 0 0 = true
    ∧ calculer_chemin_bfs carteObstacle1 (0, 0) (0, 0) ≠ none := by decide

/-- Witness for C2 at a concrete map whose goal is an Obstacle. -/
theorem calculer_chemin_bfs_echecs_temoin :
    calculer_chemin_bfs carteMur (0, 0) (1, 0) = none :=
  calculer_chemin_bfs_echecs.1 carteMur (0, 0) (1, 0) (by decide) (by decide)
    (Or.inr (by decide))

/-- C8 (amended): in the `robot.rs` update, a Collector in the Exploring
state holding a target transitions to `Retourner` with its target cleared
both when the pathfinder finds no path (cargo untouched: the record update
leaves `cargo` at its old value) and when it arrives at the target to find
the expected resource gone (no cargo stored); in the monolithic `main.rs`
variant only the target is cleared in those two situations and the state
stays `Explorer`. -/
theorem collecteur_abandon_retourne (carte : Carte) (station : PositionStation)
    (depot : DepotStation) (robot : Robot) (cx cy : Int)
    (hcible : robot.cible = some (cx, cy)) :
    (calculer_chemin_bfs carte (robot.x, robot.y) (cx, cy) = none →
      collecteurExplorerStep carte station depot robot
        = (carte, depot, { robot with cible := none, etat := EtatRobot.Retourner }))
    ∧ (∀ chemin, calculer_chemin_bfs carte (robot.x, robot.y) (cx, cy) = some chemin →
      (if chemin.length > 1 then chemin.getD 1 (robot.x, robot.y)
        else (robot.x, robot.y)) = (cx, cy) →
      tuileIdx carte cx cy ≠ resource_filtre robot.modules →
      collecteurExplorerStep carte station depot robot
        = (carte, depot,
           { robot with
             x := cx, y := cy, cible := none,
             etat := EtatRobot.Retourner })) := by
  have hcond : ¬(robot.x = (station.x : Int) ∧ robot.y = (station.y : Int)
      ∧ robot.cible = none) := by
    rw [hcible]
    rintro ⟨-, -, h⟩
    cases h
  constructor
  · intro hnone
    simp only [collecteurExplorerStep, poursuivreCible]
    rw [if_neg hcond]
    simp only [hcible, hnone]
  · intro chemin hsome harrive hgone
    simp only [collecteurExplorerStep, poursuivreCible]
    rw [if_neg hcond]
    simp only [hcible, hsome]
    by_cases hlong : chemin.length > 1
    · rw [if_pos hlong] at harrive
      simp only [hlong, if_true]
      have hx : (chemin.getD 1 (robot.x, robot.y)).1 = cx := by rw [harrive]
      have hy : (chemin.getD 1 (robot.x, robot.y)).2 = cy := by rw [harrive]
      rw [if_pos ⟨hx, hy⟩, if_neg hgone, hx, hy]
    · rw [if_neg hlong] at harrive
      have hx : robot.x = cx := by
        have := congrArg Prod.fst harrive
        simpa using this
      have hy : robot.y = cy := by
        have := congrArg Prod.snd harrive
        simpa using this
      simp only [hlong, if_false]
      rw [if_pos ⟨hx, hy⟩, if_neg hgone]
      rw [← hx, ← hy]

/-- Counterexample for C8 as frozen (the `main.rs` variant, cited by the
claim): the blocked collector — no path from (0,0) to its target (2,0) on
`carteMur` — only loses its target and remains in the `Explorer` state rather
than transitioning to `Retourner`. -/
theorem collecteur_V0_reste_explorer :
    calculer_chemin_bfs carteMur (robotBloque.x, robotBloque.y) (2, 0) = none
    ∧ (collecteurExplorerStepV0 carteMur { x := 0, y := 0 } depotInitial
        robotBloque).2.2.etat = EtatRobot.Explorer
    ∧ (collecteurExplorerStepV0 carteMur { x := 0, y := 0 } depotInitial
        robotBloque).2.2.cible = none := ⟨rfl, rfl, rfl⟩

/-- Witness for C8 at the blocked collector. -/
theorem collecteur_abandon_retourne_temoin :
    collecteurExplorerStep carteMur { x := 0, y := 0 } depotInitial robotBloque
      = (carteMur, depotInitial,
         { robotBloque with cible := none, etat := EtatRobot.Retourner }) :=
  (collecteur_abandon_retourne carteMur { x := 0, y := 0 } depotInitial robotBloque
    2 0 rfl).1 rfl

/-- C3: map generation is deterministic in the seed: the whole of
`generer_carte` is a function of the seed through the seeded Perlin field and
the seeded `StdRng` stream (under the fixed 50×30 dimensions, threshold, run
bound and probability table baked into the definitions), so two independent
runs that see different ambient thread entropy still produce identical grid
contents and identical station coordinates. -/
theorem generer_carte_deterministe
    (perlinAuDessusSeuil : Nat → Nat → Nat → Bool) (fluxStdRng : Nat → Nat → Nat)
    (e1 e2 : Nat → Nat) (seed : Nat) :
    executionGenerer perlinAuDessusSeuil fluxStdRng e1 seed
      = executionGenerer perlinAuDessusSeuil fluxStdRng e2 seed := rfl

/-- C9: `Carte::est_obstacle` is total on well-formed maps: the panic-aware
model always produces a value, out-of-bounds coordinates yield `true`, and the
value agrees with the total embedding `Carte.est_obstacle`. -/
theorem est_obstacle_total_et_borne_sure (c : Carte) (x y : Int) (h : CarteWF c) :
    (est_obstacleChecked c x y).isSome
    ∧ ((x < 0 ∨ y < 0 ∨ (c.largeur : Int) ≤ x ∨ (c.hauteur : Int) ≤ y) →
        est_obstacleChecked c x y = some true)
    ∧ est_obstacleChecked c x y = some (c.est_obstacle x y) := by
  obtain ⟨hh, hw⟩ := h
  by_cases hoob : (x < 0 || y < 0 || x ≥ (c.largeur : Int) || y ≥ (c.hauteur : Int)) = true
  · constructor
    · simp [est_obstacleChecked, hoob]
    · constructor
      · intro _; simp [est_obstacleChecked, hoob]
      · simp [est_obstacleChecked, Carte.est_obstacle, hoob]
  · have hx0 : 0 ≤ x := by
      simp only [Bool.or_eq_true, decide_eq_true_eq] at hoob; omega
    have hy0 : 0 ≤ y := by
      simp only [Bool.or_eq_true, decide_eq_true_eq] at hoob; omega
    have hxl : x < (c.largeur : Int) := by
      simp only [Bool.or_eq_true, decide_eq_true_eq] at hoob; omega
    have hyh : y < (c.hauteur : Int) := by
      simp only [Bool.or_eq_true, decide_eq_true_eq] at hoob; omega
    have hylen : y.toNat < c.donnees.length := by
      rw [hh]; omega
    obtain ⟨row, hrow⟩ : ∃ row, c.donnees.get? y.toNat = some row :=
      ⟨_, List.get?_eq_get hylen⟩
    have hrowmem : row ∈ c.donnees := by
      exact List.get?_mem hrow
    have hxlen : x.toNat < row.length := by
      rw [hw row hrowmem]; omega
    obtain ⟨t, ht⟩ : ∃ t, row.get? x.toNat = some t :=
      ⟨_, List.get?_eq_get hxlen⟩
    rw [List.get?_eq_getElem?] at hrow ht
    have hgetD : tuileIdx c x y = t := by
      simp [tuileIdx, List.getD_eq_getElem?_getD, hrow, ht]
    refine ⟨?_, ?_, ?_⟩
    · simp [est_obstacleChecked, hoob, hrow, ht]
    · intro hcontra
      exfalso
      rcases hcontra with h1 | h1 | h1 | h1 <;> omega
    · simp [est_obstacleChecked, Carte.est_obstacle, hoob, hrow, ht, hgetD]

/-- Witness for C9 at a concrete well-formed map. -/
theorem est_obstacle_total_et_borne_sure_temoin :
    (est_obstacleChecked
      { donnees := [[TypePixel.Vide, TypePixel.Obstacle]], largeur := 2, hauteur := 1 }
      1 0).isSome := by
  exact (est_obstacle_total_et_borne_sure
    { donnees := [[TypePixel.Vide, TypePixel.Obstacle]], largeur := 2, hauteur := 1 }
    1 0 (by decide)).1

/-- C6: `enregistrer_decouverte` inserts when the position is free, is a
no-op when any entry already sits at the position (same or different
resource), and registering the same discovery twice leaves exactly one entry
at that position. -/
theorem enregistrer_decouverte_spec (depot : DepotStation) (dec : Decouverte) :
    (entreesEnPosition depot dec.x dec.y = 0 →
      enregistrer_decouverte depot dec
        = { depot with decouvertes := depot.decouvertes ++ [dec] })
    ∧ (entreesEnPosition depot dec.x dec.y ≠ 0 →
      enregistrer_decouverte depot dec = depot)
    ∧ (entreesEnPosition depot dec.x dec.y = 0 →
      entreesEnPosition (enregistrer_decouverte (enregistrer_decouverte depot dec) dec)
        dec.x dec.y = 1) := by
  have hiff : depot.decouvertes.find? (fun d => d.x == dec.x && d.y == dec.y) = none
      ↔ entreesEnPosition depot dec.x dec.y = 0 := by
    rw [List.find?_eq_none]
    unfold entreesEnPosition
    rw [List.length_eq_zero, List.filter_eq_nil_iff]
  refine ⟨?_, ?_, ?_⟩
  · intro h0
    unfold enregistrer_decouverte
    rw [hiff.mpr h0]
  · intro hne
    unfold enregistrer_decouverte
    cases hfind : depot.decouvertes.find? (fun d => d.x == dec.x && d.y == dec.y) with
    | none => exact absurd (hiff.mp hfind) hne
    | some d => rfl
  · intro h0
    have h1 : enregistrer_decouverte depot dec
        = { depot with decouvertes := depot.decouvertes ++ [dec] } := by
      unfold enregistrer_decouverte
      rw [hiff.mpr h0]
    rw [h1]
    have hfound : (depot.decouvertes ++ [dec]).find?
        (fun d => d.x == dec.x && d.y == dec.y) ≠ none := by
      rw [Ne, List.find?_eq_none]
      intro hall
      exact absurd (hall dec (by simp)) (by simp)
    unfold enregistrer_decouverte
    cases hfind : (depot.decouvertes ++ [dec]).find?
        (fun d => d.x == dec.x && d.y == dec.y) with
    | none => exact absurd hfind hfound
    | some d =>
        unfold entreesEnPosition at h0 ⊢
        rw [List.length_eq_zero] at h0
        simp only [List.filter_append, h0, List.nil_append]
        simp

/-- Witness for C6 on a fresh depot and a concrete discovery. -/
theorem enregistrer_decouverte_spec_temoin :
    enregistrer_decouverte depotInitial
        { resource := TypePixel.Energie, x := 1, y := 1 }
      = { depotInitial with decouvertes :=
          [{ resource := TypePixel.Energie, x := 1, y := 1 }] } := by
  exact (enregistrer_decouverte_spec depotInitial
    { resource := TypePixel.Energie, x := 1, y := 1 }).1 (by decide)

/-- C7: the "at most one ledger entry per position" invariant holds initially
and is preserved both by explorer registration and by collector claiming. -/
theorem ledger_unique_invariant :
    LedgerUnique depotInitial.decouvertes
    ∧ (∀ depot dec, LedgerUnique depot.decouvertes →
        LedgerUnique (enregistrer_decouverte depot dec).decouvertes)
    ∧ (∀ carte depot filtre, LedgerUnique depot.decouvertes →
        LedgerUnique (prendreCible carte depot filtre).1.decouvertes) := by
  refine ⟨List.Pairwise.nil, ?_, ?_⟩
  · intro depot dec h
    unfold enregistrer_decouverte
    cases hfind : depot.decouvertes.find? (fun d => d.x == dec.x && d.y == dec.y) with
    | some d => exact h
    | none =>
        rw [List.find?_eq_none] at hfind
        unfold LedgerUnique
        rw [List.pairwise_append]
        refine ⟨h, List.pairwise_singleton _ _, ?_⟩
        intro a ha b hb
        have hb' : b = dec := by simpa using hb
        subst hb'
        have := hfind a ha
        simp only [Bool.and_eq_true, beq_iff_eq] at this
        tauto
  · intro carte depot filtre h
    unfold prendreCible
    split
    · split
      · exact h.sublist (List.eraseIdx_sublist _ _)
      · exact h
    · exact h

/-- Witness for C7's preservation parts at concrete inputs. -/
theorem ledger_unique_invariant_temoin :
    LedgerUnique (enregistrer_decouverte depotInitial
      { resource := TypePixel.Energie, x := 1, y := 1 }).decouvertes := by
  exact ledger_unique_invariant.2.1 depotInitial
    { resource := TypePixel.Energie, x := 1, y := 1 } List.Pairwise.nil

/-- C5: a deposit that brings a stock counter to 3 takes the 3 units back
(net zero) and spawns exactly one collector of the complementary
specialization; a deposit that leaves the counter below 3 spawns nothing and
keeps the incremented value; depositing three units of energy from an empty
stock spawns exactly one Forage (ore) collector, two units spawn none. -/
theorem deposerCargo_seuil_spec (station : PositionStation) (depot : DepotStation) :
    (depot.stock_energie + 1 = 3 →
      deposerCargo station depot TypePixel.Energie
        = ({ depot with stock_energie := 0 },
           [creer_collecteur station ModuleRobot.Forage]))
    ∧ (depot.stock_energie + 1 < 3 →
      deposerCargo station depot TypePixel.Energie
        = ({ depot with stock_energie := depot.stock_energie + 1 }, []))
    ∧ (depot.stock_minerai + 1 = 3 →
      deposerCargo station depot TypePixel.Minerai
        = ({ depot with stock_minerai := 0 },
           [creer_collecteur station ModuleRobot.AnalyseChimique]))
    ∧ (depot.stock_minerai + 1 < 3 →
      deposerCargo station depot TypePixel.Minerai
        = ({ depot with stock_minerai := depot.stock_minerai + 1 }, []))
    ∧ (depot.stock_energie = 0 →
      (deposerSuite station depot
          [TypePixel.Energie, TypePixel.Energie, TypePixel.Energie]).1.stock_energie
            = depot.stock_energie
        ∧ (deposerSuite station depot
            [TypePixel.Energie, TypePixel.Energie, TypePixel.Energie]).2
            = [creer_collecteur station ModuleRobot.Forage]
        ∧ (deposerSuite station depot [TypePixel.Energie, TypePixel.Energie]).1.stock_energie
            = 2
        ∧ (deposerSuite station depot [TypePixel.Energie, TypePixel.Energie]).2 = []) := by
  refine ⟨?_, ?_, ?_, ?_, ?_⟩
  · intro h3
    unfold deposerCargo
    have : depot.stock_energie + 1 ≥ 3 := by omega
    simp only [this, if_pos]
    have hz : depot.stock_energie + 1 - 3 = 0 := by omega
    simp [hz]
  · intro hlt
    unfold deposerCargo
    have : ¬(depot.stock_energie + 1 ≥ 3) := by omega
    simp [this]
  · intro h3
    unfold deposerCargo
    have : depot.stock_minerai + 1 ≥ 3 := by omega
    simp only [this, if_pos]
    have hz : depot.stock_minerai + 1 - 3 = 0 := by omega
    simp [hz]
  · intro hlt
    unfold deposerCargo
    have : ¬(depot.stock_minerai + 1 ≥ 3) := by omega
    simp [this]
  · intro h0
    have h1 : ¬(depot.stock_energie + 1 ≥ 3) := by omega
    have h2 : ¬(depot.stock_energie + 1 + 1 ≥ 3) := by omega
    have h3 : depot.stock_energie + 1 + 1 + 1 ≥ 3 := by omega
    refine ⟨?_, ?_, ?_, ?_⟩ <;>
      simp [deposerSuite, deposerCargo, h1, h2, h3, h0]

/-- Witness for C5 at a concrete depot holding two units of energy. -/
theorem deposerCargo_seuil_spec_temoin :
    deposerCargo { x := 0, y := 0 } { depotInitial with stock_energie := 2 }
        TypePixel.Energie
      = ({ depotInitial with stock_energie := 0 },
         [creer_collecteur { x := 0, y := 0 } ModuleRobot.Forage]) := by
  exact (deposerCargo_seuil_spec { x := 0, y := 0 }
    { depotInitial with stock_energie := 2 }).1 rfl

theorem MonotoneCarte_refl (c : Carte) : MonotoneCarte c c :=
  ⟨rfl, rfl, fun _ _ h => h⟩

theorem MonotoneCarte_trans {c c1 c2 : Carte} (h1 : MonotoneCarte c c1)
    (h2 : MonotoneCarte c1 c2) : MonotoneCarte c c2 :=
  ⟨h2.1.trans h1.1, h2.2.1.trans h1.2.1, fun a b h => h1.2.2 a b (h2.2.2 a b h)⟩

theorem setTuile_largeur (c : Carte) (x y : Int) (t : TypePixel) :
    (setTuile c x y t).largeur = c.largeur := rfl

theorem setTuile_hauteur (c : Carte) (x y : Int) (t : TypePixel) :
    (setTuile c x y t).hauteur = c.hauteur := rfl

theorem setTuile_donnees (c : Carte) (x y : Int) (t : TypePixel) :
    (setTuile c x y t).donnees = setCase c.donnees x.toNat y.toNat t := rfl

theorem tuileIdx_getCase (c : Carte) (x y : Int) :
    tuileIdx c x y = getCase c.donnees x.toNat y.toNat := rfl

/-- Blanking a tile creates no obstacle anywhere. -/
theorem est_obstacle_setTuile_vide {c : Carte} {x y a b : Int}
    (h : (setTuile c x y TypePixel.Vide).est_obstacle a b = true) :
    c.est_obstacle a b = true := by
  unfold Carte.est_obstacle at h ⊢
  rw [setTuile_largeur, setTuile_hauteur] at h
  by_cases hb : (a < 0 || b < 0 || a ≥ (c.largeur : Int) || b ≥ (c.hauteur : Int))
      = true
  · rw [if_pos hb]
  · rw [if_neg hb] at h
    rw [if_neg hb]
    rw [tuileIdx_getCase] at h ⊢
    rw [setTuile_donnees] at h
    rw [beq_iff_eq] at h ⊢
    exact getCase_setCase_vide c.donnees x.toNat y.toNat a.toNat b.toNat h

theorem MonotoneCarte_setTuile_vide (c : Carte) (x y : Int) :
    MonotoneCarte c (setTuile c x y TypePixel.Vide) :=
  ⟨rfl, rfl, fun _ _ h => est_obstacle_setTuile_vide h⟩

/-- A position free of obstacles stays so on any monotone evolution of the
map. -/
theorem PosOK_monotone {c c1 : Carte} {r : Robot} (hm : MonotoneCarte c c1)
    (h : PosOK c r) : PosOK c1 r := by
  unfold PosOK at h ⊢
  cases hb : c1.est_obstacle r.x r.y with
  | false => rfl
  | true =>
      rw [hm.2.2 r.x r.y hb] at h
      exact absurd h (by decide)

theorem getD_mem_de_lt {α} (l : List α) (i : Nat) (d : α) (h : i < l.length) :
    l.getD i d ∈ l := by
  rw [List.getD_eq_getElem?_getD, List.getElem?_eq_getElem h, Option.getD_some]
  exact List.getElem_mem h

/-- The second cell of any path returned by the BFS is in bounds and free:
a multi-cell path never comes from the degenerate start-equals-goal branch,
so path soundness applies to each of its cells. -/
theorem bfs_pas_suivant_sur {c : Carte} {dep arr : Pos} {p : List Pos}
    (h : calculer_chemin_bfs c dep arr = some p) (hlen : 1 < p.length) (q : Pos) :
    c.est_obstacle (p.getD 1 q).1 (p.getD 1 q).2 = false := by
  by_cases hda : dep = arr
  · exfalso
    unfold calculer_chemin_bfs at h
    rw [if_pos hda] at h
    have hp : p = [dep] := (Option.some_injective _ h).symm
    rw [hp] at hlen
    simp at hlen
  · have hchem := (calculer_chemin_bfs_sain c dep arr p h (Or.inl hda)).1
    exact hchem.2.2.2 _ (getD_mem_de_lt p 1 q hlen)

/-- Every candidate explorer move passed the in-bounds non-obstacle filter. -/
theorem deplacementsPossibles_sur (carte : Carte) (robot : Robot) (n : Pos)
    (h : n ∈ deplacementsPossibles carte robot) :
    carte.est_obstacle n.1 n.2 = false := by
  unfold deplacementsPossibles at h
  have hf := List.of_mem_filter h
  simp only [Bool.and_eq_true, Bool.not_eq_true'] at hf
  exact hf.2

/-- The chosen explorer move is always obstacle-free: both random branches
pick inside the filtered candidate list (the draw index is a remainder, hence
in range), and the fallback is the robot standing still. -/
theorem choisirDeplacement_sur (carte : Carte) (robot : Robot) (vs : List Pos)
    (rng : FluxAleatoire) (h : PosOK carte robot) :
    carte.est_obstacle (choisirDeplacement carte robot vs rng).1.1
      (choisirDeplacement carte robot vs rng).1.2 = false := by
  simp only [choisirDeplacement]
  by_cases h1 : (deplacementsPossibles carte robot).filter
      (fun n => !(List.contains vs n)) ≠ []
  · rw [if_pos h1]
    have hlt : (tirer rng ((deplacementsPossibles carte robot).filter
        (fun n => !(List.contains vs n))).length).1
        < ((deplacementsPossibles carte robot).filter
          (fun n => !(List.contains vs n))).length :=
      Nat.mod_lt _ (List.length_pos.mpr h1)
    exact deplacementsPossibles_sur carte robot _
      (List.mem_of_mem_filter (getD_mem_de_lt _ _ (robot.x, robot.y) hlt))
  · rw [if_neg h1]
    by_cases h2 : deplacementsPossibles carte robot ≠ []
    · rw [if_pos h2]
      have hlt : (tirer rng (deplacementsPossibles carte robot).length).1
          < (deplacementsPossibles carte robot).length :=
        Nat.mod_lt _ (List.length_pos.mpr h2)
      exact deplacementsPossibles_sur carte robot _
        (getD_mem_de_lt _ _ (robot.x, robot.y) hlt)
    · rw [if_neg h2]
      exact h

/-- Resource detection never moves the robot. -/
theorem detecterRessource_coords (carte : Carte) (r : Robot) :
    (detecterRessource carte r).x = r.x ∧ (detecterRessource carte r).y = r.y := by
  unfold detecterRessource
  split
  · split
    · split
      · exact ⟨rfl, rfl⟩
      · exact ⟨rfl, rfl⟩
    · exact ⟨rfl, rfl⟩
  · exact ⟨rfl, rfl⟩

/-- PosOK depends only on the robot coordinates. -/
theorem PosOK_coords {c : Carte} {r r1 : Robot} (hx : r1.x = r.x)
    (hy : r1.y = r.y) (h : PosOK c r) : PosOK c r1 := by
  unfold PosOK at h ⊢
  rw [hx, hy]
  exact h

/-- One exploring-explorer step keeps the robot in bounds off obstacles. -/
theorem explorateurExplorerStep_sur (carte : Carte) (robot : Robot)
    (rng : FluxAleatoire) (h : PosOK carte robot) :
    PosOK carte (explorateurExplorerStep carte robot rng).1 := by
  simp only [explorateurExplorerStep]
  have hc := choisirDeplacement_sur carte robot
    (if (robot.x, robot.y) ∈ robot.visites then robot.visites
      else (robot.x, robot.y) :: robot.visites) rng h
  exact PosOK_coords (detecterRessource_coords carte _).1
    (detecterRessource_coords carte _).2 hc

/-- One returning-explorer step keeps the robot in bounds off obstacles. -/
theorem explorateurRetournerStep_sur (carte : Carte) (station : PositionStation)
    (depot : DepotStation) (robot : Robot) (h : PosOK carte robot) :
    PosOK carte (explorateurRetournerStep carte station depot robot).2 := by
  simp only [explorateurRetournerStep]
  by_cases hs : robot.x = (station.x : Int) ∧ robot.y = (station.y : Int)
  · rw [if_pos hs]
    exact h
  · rw [if_neg hs]
    cases hbfs : calculer_chemin_bfs carte (robot.x, robot.y)
        ((station.x : Int), (station.y : Int)) with
    | none => simp only [hbfs]; exact h
    | some chemin =>
        simp only [hbfs]
        by_cases hlen : chemin.length > 1
        · rw [if_pos hlen]
          exact bfs_pas_suivant_sur hbfs hlen (robot.x, robot.y)
        · rw [if_neg hlen]
          exact h

/-- One returning-collector step keeps the robot in bounds off obstacles. -/
theorem collecteurRetournerStep_sur (carte : Carte) (station : PositionStation)
    (depot : DepotStation) (robot : Robot) (h : PosOK carte robot) :
    PosOK carte (collecteurRetournerStep carte station depot robot).2.1 := by
  simp only [collecteurRetournerStep]
  by_cases hs : robot.x = (station.x : Int) ∧ robot.y = (station.y : Int)
  · rw [if_pos hs]
    cases hcg : robot.cargo with
    | none => simp only [hcg]; exact h
    | some c0 =>
        obtain ⟨res, rx, ry⟩ := c0
        simp only [hcg]
        exact h
  · rw [if_neg hs]
    cases hbfs : calculer_chemin_bfs carte (robot.x, robot.y)
        ((station.x : Int), (station.y : Int)) with
    | none => simp only [hbfs]; exact h
    | some chemin =>
        simp only [hbfs]
        by_cases hlen : chemin.length > 1
        · rw [if_pos hlen]
          exact bfs_pas_suivant_sur hbfs hlen (robot.x, robot.y)
        · rw [if_neg hlen]
          exact h

/-- The arrival part of the collector pursuit: whichever branch fires, the
map change is monotone (at most one tile blanked) and the robot, whose
coordinates are untouched here, stays obstacle-free on the resulting map. -/
theorem poursuivreCible_arrivee_sur (carte : Carte) (depot1 : DepotStation)
    (filtre : TypePixel) (robot2 : Robot) (cx cy : Int)
    (h : PosOK carte robot2) :
    MonotoneCarte carte
      (if robot2.x = cx ∧ robot2.y = cy then
        if tuileIdx carte cx cy = filtre then
          (setTuile carte cx cy TypePixel.Vide, depot1,
           { robot2 with
             cargo := some (tuileIdx carte cx cy, cx, cy),
             cible := none, etat := EtatRobot.Retourner })
        else (carte, depot1, { robot2 with cible := none, etat := EtatRobot.Retourner })
      else (carte, depot1, robot2)).1
    ∧ PosOK
      (if robot2.x = cx ∧ robot2.y = cy then
        if tuileIdx carte cx cy = filtre then
          (setTuile carte cx cy TypePixel.Vide, depot1,
           { robot2 with
             cargo := some (tuileIdx carte cx cy, cx, cy),
             cible := none, etat := EtatRobot.Retourner })
        else (carte, depot1, { robot2 with cible := none, etat := EtatRobot.Retourner })
      else (carte, depot1, robot2)).1
      (if robot2.x = cx ∧ robot2.y = cy then
        if tuileIdx carte cx cy = filtre then
          (setTuile carte cx cy TypePixel.Vide, depot1,
           { robot2 with
             cargo := some (tuileIdx carte cx cy, cx, cy),
             cible := none, etat := EtatRobot.Retourner })
        else (carte, depot1, { robot2 with cible := none, etat := EtatRobot.Retourner })
      else (carte, depot1, robot2)).2.2 := by
  by_cases harr : robot2.x = cx ∧ robot2.y = cy
  · rw [if_pos harr]
    by_cases hres : tuileIdx carte cx cy = filtre
    · rw [if_pos hres]
      exact ⟨MonotoneCarte_setTuile_vide carte cx cy,
        PosOK_monotone (MonotoneCarte_setTuile_vide carte cx cy) h⟩
    · rw [if_neg hres]
      exact ⟨MonotoneCarte_refl carte, h⟩
  · rw [if_neg harr]
    exact ⟨MonotoneCarte_refl carte, h⟩

/-- Pursuing a target keeps the map monotone and the robot obstacle-free. -/
theorem poursuivreCible_sur (carte : Carte) (depot1 : DepotStation)
    (filtre : TypePixel) (robot1 : Robot) (h : PosOK carte robot1) :
    MonotoneCarte carte (poursuivreCible carte depot1 filtre robot1).1
      ∧ PosOK (poursuivreCible carte depot1 filtre robot1).1
          (poursuivreCible carte depot1 filtre robot1).2.2 := by
  simp only [poursuivreCible]
  cases hc : robot1.cible with
  | none => simp only [hc]; exact ⟨MonotoneCarte_refl carte, h⟩
  | some cxy =>
      obtain ⟨cx, cy⟩ := cxy
      simp only [hc]
      cases hbfs : calculer_chemin_bfs carte (robot1.x, robot1.y) (cx, cy) with
      | none => simp only [hbfs]; exact ⟨MonotoneCarte_refl carte, h⟩
      | some chemin =>
          simp only [hbfs]
          by_cases hlen : chemin.length > 1
          · rw [if_pos hlen]
            have h2 : PosOK carte { robot1 with
                x := (chemin.getD 1 (robot1.x, robot1.y)).1,
                y := (chemin.getD 1 (robot1.x, robot1.y)).2 } :=
              bfs_pas_suivant_sur hbfs hlen (robot1.x, robot1.y)
            exact poursuivreCible_arrivee_sur carte depot1 filtre _ cx cy h2
          · rw [if_neg hlen]
            exact poursuivreCible_arrivee_sur carte depot1 filtre robot1 cx cy h

/-- One exploring-collector step keeps the map monotone and the robot
obstacle-free on the resulting map. -/
theorem collecteurExplorerStep_sur (carte : Carte) (station : PositionStation)
    (depot : DepotStation) (robot : Robot) (h : PosOK carte robot) :
    MonotoneCarte carte (collecteurExplorerStep carte station depot robot).1
      ∧ PosOK (collecteurExplorerStep carte station depot robot).1
          (collecteurExplorerStep carte station depot robot).2.2 := by
  simp only [collecteurExplorerStep]
  exact poursuivreCible_sur carte _ _ _ h

/-- One robot step keeps the map monotone and the robot obstacle-free on the
resulting map, whatever the robot role and state. -/
theorem robotStep_sur (station : PositionStation) (carte : Carte)
    (depot : DepotStation) (rng : FluxAleatoire) (robot : Robot)
    (h : PosOK carte robot) :
    MonotoneCarte carte (robotStep station carte depot rng robot).1
      ∧ PosOK (robotStep station carte depot rng robot).1
          (robotStep station carte depot rng robot).2.2.2.1 := by
  unfold robotStep
  cases hrole : robot.role <;> cases hetat : robot.etat
  · exact ⟨MonotoneCarte_refl carte, explorateurExplorerStep_sur carte robot rng h⟩
  · exact ⟨MonotoneCarte_refl carte,
      explorateurRetournerStep_sur carte station depot robot h⟩
  · exact collecteurExplorerStep_sur carte station depot robot h
  · exact ⟨MonotoneCarte_refl carte,
      collecteurRetournerStep_sur carte station depot robot h⟩

/-- C10: invariant kept by the update pass `deplacer_robots`: whenever every
robot of the pass starts in bounds on a non-Obstacle tile (of the map as the
pass starts), every updated robot ends in bounds on a non-Obstacle tile of the
map as the pass ends — explorers only move to neighbours filtered to be
in-bounds and non-obstacle (or stay put), every path-following step lands on a
cell BFS admitted only because `est_obstacle` was false for it, and the only
map mutation of the pass blanks tiles, which never creates an obstacle. -/
theorem deplacer_robots_preserve_positions (station : PositionStation)
    (carte : Carte) (depot : DepotStation) (rng : FluxAleatoire)
    (robots : List Robot) (h : ∀ r ∈ robots, PosOK carte r) :
    MonotoneCarte carte (deplacer_robots station carte depot rng robots).1
      ∧ ∀ r ∈ (deplacer_robots station carte depot rng robots).2.2.2.1,
          PosOK (deplacer_robots station carte depot rng robots).1 r := by
  induction robots generalizing carte depot rng with
  | nil =>
      refine ⟨MonotoneCarte_refl carte, ?_⟩
      intro r hr
      exact absurd hr (List.not_mem_nil r)
  | cons a l ih =>
      have hs := robotStep_sur station carte depot rng a
        (h a (List.mem_cons_self a l))
      have hl : ∀ r ∈ l, PosOK (robotStep station carte depot rng a).1 r :=
        fun r hr => PosOK_monotone hs.1 (h r (List.mem_cons_of_mem a hr))
      have hrest := ih (robotStep station carte depot rng a).1
        (robotStep station carte depot rng a).2.1
        (robotStep station carte depot rng a).2.2.1 hl
      simp only [deplacer_robots]
      refine ⟨MonotoneCarte_trans hs.1 hrest.1, ?_⟩
      intro r hr
      rcases List.mem_cons.mp hr with hr | hr
      · rw [hr]
        exact PosOK_monotone hrest.1 hs.2
      · exact hrest.2 r hr

/-- Witness for C10: one pass over a lone explorer at the origin of the empty
3×3 map, with a constant draw stream. -/
theorem deplacer_robots_preserve_positions_temoin :
    MonotoneCarte carte3x3
      (deplacer_robots { x := 2, y := 2 } carte3x3 depotInitial fluxZero
        [robotTemoin]).1
    ∧ PosOK
      (deplacer_robots { x := 2, y := 2 } carte3x3 depotInitial fluxZero
        [robotTemoin]).1
      ((deplacer_robots { x := 2, y := 2 } carte3x3 depotInitial fluxZero
        [robotTemoin]).2.2.2.1.getD 0 robotTemoin) := by
  have h := deplacer_robots_preserve_positions { x := 2, y := 2 } carte3x3
    depotInitial fluxZero [robotTemoin]
    (by
      intro r hr
      rw [List.mem_singleton.mp hr]
      exact (by decide :
        carte3x3.est_obstacle robotTemoin.x robotTemoin.y = false))
  exact ⟨h.1, h.2 _ (getD_mem_de_lt _ 0 robotTemoin (by decide))⟩

end RobotsSim
